import Mathlib

/-!
Verification development for the quip container codec bundled with cryfa
(`src/progs/quip/src/quipfmt.c` and companions).  The block-framing layer
(`quipfmt.c`) is embedded shallowly and faithfully; the four sub-stream
codecs (idenc.c, samoptenc.c, qualenc.c, the assembler) and crc64.c are not
part of the sources and are modelled from the specification through their
narrow writer/reader contracts, as documented on each such definition.
-/

namespace Quip

/-! ### Constants from quipfmt.c -/

/-- Maximum number of bases per block (`block_size`, quipfmt.c line 22). -/
def block_size : Nat := 5000000

/-- Highest quality score range supported (`qual_scale_size`, quipfmt.c line 25),
a `char` in the source, hence an `Int` here. -/
def qual_scale_size : Int := 64

/-- Maximum number of reads buffered before compression (`chunk_size`, line 28). -/
def chunk_size : Nat := 5000

/-- The six magic bytes `FF 'Q' 'U' 'I' 'P' 00` (`quip_header_magic`, line 16). -/
def quip_header_magic : List Nat := [255, 81, 85, 73, 80, 0]

/-- Container version written by the encoder (`quip_header_version`, line 19). -/
def quip_header_version : Nat := 3

/-- Modelled from the spec: the aux format tag byte for "no auxiliary data"
(`QUIP_FMT_NULL` of quip.h, which is not under src/); the spec only requires a
fixed one-byte tag, so the value is modelled as 1. -/
def QUIP_FMT_NULL : Nat := 1

/-! ### Bytes and C `char` arithmetic

A byte on the wire is a `Nat` (kept below 256 by the writers).  Quality
scores are manipulated as C `char` values, i.e. signed 8-bit integers. -/

/-- The signed `char` value of a byte, as the source's casts produce it. -/
def charOfByte (b : Nat) : Int :=
  if b % 256 < 128 then ((b % 256 : Nat) : Int) else ((b % 256 : Nat) : Int) - 256

/-- The `uint8_t` value of a `char`, as the source's casts produce it. -/
def byteOfChar (c : Int) : Nat := (c % 256).toNat

/-- Embedding of `write_uint8` (quipfmt.c line 54): one byte. -/
def write_uint8 (x : Nat) : List Nat := [x % 256]

/-- Embedding of `write_uint32` (line 60): four big-endian bytes. -/
def write_uint32 (x : Nat) : List Nat :=
  [x / 2 ^ 24 % 256, x / 2 ^ 16 % 256, x / 2 ^ 8 % 256, x % 256]

/-- Embedding of `write_uint64` (line 70): eight big-endian bytes. -/
def write_uint64 (x : Nat) : List Nat :=
  [x / 2 ^ 56 % 256, x / 2 ^ 48 % 256, x / 2 ^ 40 % 256, x / 2 ^ 32 % 256,
   x / 2 ^ 24 % 256, x / 2 ^ 16 % 256, x / 2 ^ 8 % 256, x % 256]

/-- The failure modes surfaced by `quip_error` calls in the embedded code. -/
inductive QuipErr where
  | eof               -- "Unexpected end of file."
  | notQuip           -- "Input file is not a quip file."
  | badVersion        -- check_header_version rejection
  | missingRef        -- "A reference sequence is needed for decompression."
  | wrongRef          -- seqmap_check_quip_header_info rejection
  | invalidQualScale  -- "Invalid quality score scheme ..."
  | fuelOut           -- artefact of the fuelled decode loop, never a C behaviour
deriving DecidableEq, Repr

/-- Embedding of `read_uint8` (line 85): fails on an empty stream. -/
def read_uint8 : List Nat → Except QuipErr (Nat × List Nat)
  | [] => .error .eof
  | b :: r => .ok (b % 256, r)

/-- Embedding of `read_uint32` (line 94): fails when fewer than 4 bytes remain. -/
def read_uint32 : List Nat → Except QuipErr (Nat × List Nat)
  | b0 :: b1 :: b2 :: b3 :: r =>
      .ok (b0 % 256 * 2 ^ 24 + b1 % 256 * 2 ^ 16 + b2 % 256 * 2 ^ 8 + b3 % 256, r)
  | _ => .error .eof

/-- Embedding of `read_uint64` (line 106): fails when fewer than 8 bytes remain. -/
def read_uint64 : List Nat → Except QuipErr (Nat × List Nat)
  | b0 :: b1 :: b2 :: b3 :: b4 :: b5 :: b6 :: b7 :: r =>
      .ok (b0 % 256 * 2 ^ 56 + b1 % 256 * 2 ^ 48 + b2 % 256 * 2 ^ 40 + b3 % 256 * 2 ^ 32 +
           b4 % 256 * 2 ^ 24 + b5 % 256 * 2 ^ 16 + b6 % 256 * 2 ^ 8 + b7 % 256, r)
  | _ => .error .eof

/-! ### Reads and run-length lists -/

/-- Embedding of `short_read_t`: the four per-read byte strings.  The aux
tag table is modelled by its canonical byte serialization (the codec treats
it only through `samoptenc_encode` and `samopt_table_bytes`). -/
structure short_read where
  id : List Nat
  seq : List Nat
  qual : List Nat
  aux : List Nat
deriving DecidableEq, Repr, Inhabited

/-- Add `n` to the run count of the last run of a run-length list; the
counts are stored as `uint32_t` in the source, so the increment wraps at
`2 ^ 32`. -/
def rle_add_last {α : Type} : List (α × Nat) → Nat → List (α × Nat)
  | [], _ => []
  | [p], n => [(p.1, (p.2 + n) % 2 ^ 32)]
  | p :: q :: rest, n => p :: rle_add_last (q :: rest) n

/-- Embedding of `quip_out_add_readlen` (quipfmt.c line 384): push one read
length onto the run-length-encoded read-length list.  The stored values are
`uint32_t`, so a pushed length is truncated; the comparison
`readlen_vals[count-1] != l` promotes the stored `uint32_t` to `size_t`, so
it compares the truncated stored value against the untruncated length. -/
def quip_out_add_readlen (rl : List (Nat × Nat)) (l : Nat) : List (Nat × Nat) :=
  if rl = [] ∨ ((rl.getLastD (0, 0)).1 ≠ l) then rl ++ [(l % 2 ^ 32, 1)]
  else rle_add_last rl 1

/-- Sum of the run counts of a run-length list. -/
def rleSum {α : Type} (l : List (α × Nat)) : Nat := (l.map (·.2)).sum

/-! ### Modelled checksums and sub-stream codecs

crc64.c and the four sub-stream codec implementations are not under src/;
they are modelled from the specification (§4.3, §6.2). -/

/-- Modelled from the spec: `crc64_update` of crc64.c is not under src/.
§6.2 fixes the Jones/ECMA-182 table with initial value 0 and no final XOR;
every claim uses the checksum only as a deterministic streaming fold over
bytes whose equality is compared, so the fold is modelled abstractly. -/
def crc64_update (s : List Nat) (crc : Nat) : Nat :=
  s.foldl (fun c b => (c * 257 + b % 256 + 1) % 2 ^ 64) crc

/-- Modelled from the spec: the IdCodec wire format of idenc.c (not under
src/).  §4.3.1 requires only that `idenc_decode` restore each id fed to
`idenc_encode`, in order; the model serializes each id length-prefixed. -/
def idenc_encode_bytes (s : List Nat) : List Nat := write_uint32 s.length ++ s

/-- Modelled from the spec: the AuxCodec wire format of samoptenc.c (not
under src/).  §4.3.3 requires only that the decoder restore each tag table;
the model serializes the table's canonical bytes length-prefixed. -/
def samoptenc_encode_bytes (s : List Nat) : List Nat := write_uint32 s.length ++ s

/-- Modelled from the spec: `samopt_table_bytes`, the uncompressed byte size
of an aux tag table (samopt.c not under src/); the table is modelled by its
canonical bytes, so the size is their length. -/
def samopt_table_bytes (s : List Nat) : Nat := s.length

/-- Modelled from the spec: the plain sequence coder behind the assembler
interface (not under src/).  §4.3.4 requires `read(out, n)` to restore the
`n`-base sequence fed to `add_seq`; the decoder learns `n` from the
read-length side information, so the model stores the raw bases. -/
def assembler_encode_bytes (s : List Nat) : List Nat := s

/-- Modelled from the spec: the QualCodec wire format of qualenc.c (not
under src/).  §4.3.2 codes quality bytes relative to the active `base`
(alphabet `[base, base + QUAL_SCALE)`), and a read may carry zero quality
bytes; the model writes a presence flag followed by the base-relative
offsets, so decoding depends on the decoder using the same `base`. -/
def qualenc_encode_bytes (base : Int) (q : List Nat) : List Nat :=
  if q.isEmpty then [0] else 1 :: q.map (fun x => byteOfChar (charOfByte x - base))

/-! ### The encoder (`quip_quip_out_t` and friends) -/

/-- Ghost record of one block as `quip_out_flush_block` emits it; the bytes
on the wire are exactly `blockBytes` of this record. -/
structure BlockRec where
  reads_in_block : Nat
  bases_in_block : Nat
  readlen : List (Nat × Nat)
  scheme : List (Int × Nat)
  id_bytes : Nat
  aux_bytes : Nat
  seq_bytes : Nat
  qual_bytes : Nat
  comp_id : List Nat
  comp_aux : List Nat
  comp_seq : List Nat
  comp_qual : List Nat
  id_crc : Nat
  aux_crc : Nat
  seq_crc : Nat
  qual_crc : Nat
deriving DecidableEq, Repr

/-- Serialization of one block, following the write sequence of
`quip_out_flush_block` (quipfmt.c lines 404-477): counts, the two RLE lists,
the four (uncompressed, compressed, crc64) triples in id/aux/seq/qual order,
then the four compressed regions in the same order. -/
def blockBytes (b : BlockRec) : List Nat :=
  write_uint32 b.reads_in_block ++ write_uint32 b.bases_in_block ++
  (b.readlen.map (fun p => write_uint32 p.1 ++ write_uint32 p.2)).flatten ++
  (b.scheme.map (fun p => write_uint8 (byteOfChar p.1) ++ write_uint32 p.2)).flatten ++
  write_uint32 b.id_bytes ++ write_uint32 b.comp_id.length ++ write_uint64 b.id_crc ++
  write_uint32 b.aux_bytes ++ write_uint32 b.comp_aux.length ++ write_uint64 b.aux_crc ++
  write_uint32 b.seq_bytes ++ write_uint32 b.comp_seq.length ++ write_uint64 b.seq_crc ++
  write_uint32 b.qual_bytes ++ write_uint32 b.comp_qual.length ++ write_uint64 b.qual_crc ++
  b.comp_id ++ b.comp_aux ++ b.comp_seq ++ b.comp_qual

/-- Embedding of `quip_quip_out_t` (quipfmt.c line 175).  `out` is the byte
stream handed to the writer callback so far and `blocks` the ghost trace of
emitted blocks; the four `*enc_buf` fields model the compressed bytes each
sub-stream codec is holding before `flush`. -/
structure quip_quip_out_t where
  chunk : List short_read
  out : List Nat
  blocks : List BlockRec
  buffered_reads : Nat
  buffered_bases : Nat
  id_crc : Nat
  aux_crc : Nat
  seq_crc : Nat
  qual_crc : Nat
  id_bytes : Nat
  aux_bytes : Nat
  qual_bytes : Nat
  seq_bytes : Nat
  readlen : List (Nat × Nat)
  scheme : List (Int × Nat)
  total_reads : Nat
  total_bases : Nat
  idenc_buf : List Nat
  auxenc_buf : List Nat
  seqenc_buf : List Nat
  qualenc_buf : List Nat
  qualenc_base : Int
  finished : Bool
deriving DecidableEq, Repr

/-- The container header written by `quip_quip_out_open` (lines 348-376) in
the reference-free, assembly-free configuration modelled here: magic,
version, zero flags, the null aux tag and a zero aux length. -/
def headerBytes : List Nat :=
  quip_header_magic ++ [quip_header_version] ++ [0] ++
  write_uint8 QUIP_FMT_NULL ++ write_uint64 0

/-- Embedding of `quip_quip_out_open` (line 294) without reference or
assembly options.  The source allocates `qual_scheme_lens` without
initializing index 0 (lines 333-337) while setting `qual_scheme_vals[0]`
to `'!'`; the uninitialized run count is exposed as the parameter `u0`
(the reset in `quip_out_flush_block` line 498 shows 0 is the intended
value, and the theorems below instantiate `u0 := 0`). -/
def quip_quip_out_open (u0 : Nat) : quip_quip_out_t where
  chunk := []
  out := headerBytes
  blocks := []
  buffered_reads := 0
  buffered_bases := 0
  id_crc := 0
  aux_crc := 0
  seq_crc := 0
  qual_crc := 0
  id_bytes := 0
  aux_bytes := 0
  qual_bytes := 0
  seq_bytes := 0
  readlen := []
  scheme := [(33, u0)]
  total_reads := 0
  total_bases := 0
  idenc_buf := []
  auxenc_buf := []
  seqenc_buf := []
  qualenc_buf := []
  qualenc_base := 33
  finished := false

end Quip

namespace Quip

/-! ### Chunk scanning and quality-scheme bookkeeping -/

/-- Embedding of the `min_qual` scan of `update_qual_scheme_guess`
(quipfmt.c lines 509-521), starting from the sentinel `'~'` (126).
`qual.s` is `uint8_t*` while the accumulator is a `char`, so the
comparison promotes the byte to `int` (0..255) against the sign-extended
accumulator, and the assignment truncates the byte to `char`.  Since the
accumulator starts at 126 and only shrinks, it stays in 0..126. -/
def chunk_min_qual (chunk : List short_read) : Int :=
  chunk.foldl
    (fun m r => r.qual.foldl
      (fun m q => if ((q % 256 : Nat) : Int) < m then charOfByte q else m) m) 126

/-- Embedding of the `max_qual` scan of `update_qual_scheme_guess`
(lines 509-521), starting from the sentinel `'!'` (33).  As in the
minimum scan, the `uint8_t` byte is promoted to `int` for the comparison
but truncated to `char` by the assignment, so a byte of 128..255 makes
the accumulator negative. -/
def chunk_max_qual (chunk : List short_read) : Int :=
  chunk.foldl
    (fun m r => r.qual.foldl
      (fun m q => if ((q % 256 : Nat) : Int) > m then charOfByte q else m) m) 33

/-- Embedding of `update_qual_scheme_guess` (quipfmt.c lines 505-554):
scan the chunk for its extreme quality values, fail on the source's guard
`max_qual - min_qual > max_qual` (which, `min_qual` never being negative
over `uint8_t` data, can never fire), then either open a new
quality-scheme run (when `min_qual < last_base_qual` or
`max_qual >= last_base_qual + qual_scale_size`) or extend the current one,
and hand the resulting base to the quality codec.  A new run's count is
the chunk length truncated to `uint32_t`. -/
def update_qual_scheme_guess (C : quip_quip_out_t) : Except QuipErr quip_quip_out_t :=
  let last_base_qual := (C.scheme.getLastD (33, 0)).1
  let min_qual := chunk_min_qual C.chunk
  let max_qual := chunk_max_qual C.chunk
  if max_qual - min_qual > max_qual then .error .invalidQualScale
  else if min_qual < last_base_qual ∨ max_qual ≥ last_base_qual + qual_scale_size then
    .ok { C with scheme := C.scheme ++ [(min_qual, C.chunk.length % 2 ^ 32)],
                 qualenc_base := min_qual }
  else
    .ok { C with scheme := rle_add_last C.scheme C.chunk.length,
                 qualenc_base := last_base_qual }

/-- Embedding of `id_compressor_thread` (line 229): encode every id of the
chunk and extend the id CRC; the thread touches no other state. -/
def id_compressor_thread (C : quip_quip_out_t) : quip_quip_out_t :=
  C.chunk.foldl
    (fun s r => { s with idenc_buf := s.idenc_buf ++ idenc_encode_bytes r.id,
                         id_crc := crc64_update r.id s.id_crc }) C

/-- Embedding of `aux_compressor_thread` (line 245); the aux CRC is the
checksum over the table's canonical bytes (`samoptenc_crc64_update`). -/
def aux_compressor_thread (C : quip_quip_out_t) : quip_quip_out_t :=
  C.chunk.foldl
    (fun s r => { s with auxenc_buf := s.auxenc_buf ++ samoptenc_encode_bytes r.aux,
                         aux_crc := crc64_update r.aux s.aux_crc }) C

/-- Embedding of `seq_compressor_thread` (line 262). -/
def seq_compressor_thread (C : quip_quip_out_t) : quip_quip_out_t :=
  C.chunk.foldl
    (fun s r => { s with seqenc_buf := s.seqenc_buf ++ assembler_encode_bytes r.seq,
                         seq_crc := crc64_update r.seq s.seq_crc }) C

/-- Embedding of `qual_compressor_thread` (line 278); the codec's base was
set by `update_qual_scheme_guess` before the chunk is dispatched. -/
def qual_compressor_thread (C : quip_quip_out_t) : quip_quip_out_t :=
  C.chunk.foldl
    (fun s r => { s with qualenc_buf := s.qualenc_buf ++ qualenc_encode_bytes s.qualenc_base r.qual,
                         qual_crc := crc64_update r.qual s.qual_crc }) C

/-- Embedding of the bookkeeping loop of `quip_out_flush_chunk` (lines
571-580): read-length RLE, per-stream uncompressed byte counters and base
counters, one read at a time. -/
def chunk_bookkeeping (C : quip_quip_out_t) : quip_quip_out_t :=
  C.chunk.foldl
    (fun s r => { s with readlen := quip_out_add_readlen s.readlen r.seq.length,
                         id_bytes := s.id_bytes + r.id.length,
                         aux_bytes := s.aux_bytes + samopt_table_bytes r.aux,
                         qual_bytes := s.qual_bytes + r.qual.length,
                         seq_bytes := s.seq_bytes + r.seq.length,
                         buffered_bases := s.buffered_bases + r.seq.length,
                         total_bases := s.total_bases + r.seq.length }) C

/-- Embedding of `quip_out_flush_chunk` (quipfmt.c lines 557-594): fix the
quality scheme, run the four compressor tasks over the chunk (they touch
pairwise disjoint state, so they are sequenced here), do the bookkeeping,
and clear the chunk buffer. -/
def quip_out_flush_chunk (C : quip_quip_out_t) : Except QuipErr quip_quip_out_t := do
  let C ← update_qual_scheme_guess C
  let C := qual_compressor_thread (seq_compressor_thread (aux_compressor_thread (id_compressor_thread C)))
  let C := chunk_bookkeeping C
  .ok { C with buffered_reads := C.buffered_reads + C.chunk.length,
               total_reads := C.total_reads + C.chunk.length,
               chunk := [] }

/-- Embedding of `quip_out_flush_block` (quipfmt.c lines 404-500): emit the
block header and the four compressed regions (the `*enc_finish` results are
the buffered byte counts and `*enc_flush` drains the buffers), record the
ghost `BlockRec`, and reset the per-block state, carrying the last
quality-scheme base over as a zero-count run. -/
def quip_out_flush_block (C : quip_quip_out_t) : quip_quip_out_t :=
  let b : BlockRec :=
    { reads_in_block := C.buffered_reads
      bases_in_block := C.buffered_bases
      readlen := C.readlen
      scheme := C.scheme
      id_bytes := C.id_bytes
      aux_bytes := C.aux_bytes
      seq_bytes := C.seq_bytes
      qual_bytes := C.qual_bytes
      comp_id := C.idenc_buf
      comp_aux := C.auxenc_buf
      comp_seq := C.seqenc_buf
      comp_qual := C.qualenc_buf
      id_crc := C.id_crc
      aux_crc := C.aux_crc
      seq_crc := C.seq_crc
      qual_crc := C.qual_crc }
  { C with out := C.out ++ blockBytes b
           blocks := C.blocks ++ [b]
           buffered_reads := 0
           buffered_bases := 0
           id_bytes := 0
           qual_bytes := 0
           seq_bytes := 0
           aux_bytes := 0
           id_crc := 0
           seq_crc := 0
           qual_crc := 0
           aux_crc := 0
           readlen := []
           scheme := [((C.scheme.getLastD (33, 0)).1, 0)]
           idenc_buf := []
           auxenc_buf := []
           seqenc_buf := []
           qualenc_buf := [] }

/-- Embedding of `quip_quip_write` (quipfmt.c lines 597-608): flush the
block once the buffered base count strictly exceeds `block_size`, flush the
chunk once it holds `chunk_size` reads, then buffer the read. -/
def quip_quip_write (C : quip_quip_out_t) (r : short_read) : Except QuipErr quip_quip_out_t := do
  let C := if C.buffered_bases > block_size then quip_out_flush_block C else C
  let C ← if C.chunk.length = chunk_size then quip_out_flush_chunk C else .ok C
  .ok { C with chunk := C.chunk ++ [r] }

/-- Embedding of `quip_out_finish` (quipfmt.c lines 611-621): a no-op when
already finished; otherwise flush a non-empty chunk, flush the block if it
holds any bases, and write the terminating zero `u32`. -/
def quip_out_finish (C : quip_quip_out_t) : Except QuipErr quip_quip_out_t :=
  if C.finished then .ok C else do
    let C ← if C.chunk.length > 0 then quip_out_flush_chunk C else .ok C
    let C := if C.buffered_bases > 0 then quip_out_flush_block C else C
    .ok { C with out := C.out ++ write_uint32 0, finished := true }

/-- Embedding of `quip_quip_out_close` (quipfmt.c lines 624-642) up to
deallocation: finish unless already finished. -/
def quip_quip_out_close (C : quip_quip_out_t) : Except QuipErr quip_quip_out_t :=
  if !C.finished then quip_out_finish C else .ok C

/-- One full encode run: open (with `u0` the uninitialized first
quality-scheme run count), write every read in order, finish. -/
def encodeAll (u0 : Nat) (reads : List short_read) : Except QuipErr quip_quip_out_t := do
  let C ← reads.foldlM quip_quip_write (quip_quip_out_open u0)
  quip_out_finish C

end Quip

namespace Quip

/-! ### The reference map (seqmap.c) -/

/-- Embedding of `seqmap_t` (seqmap.c).  A two-bit packed sequence
(twobit.c, not under src/) is modelled from the spec as its nucleotide
bytes, so `twobit_len` is the list length and `twobit_crc64_update` a
`crc64_update` over it. -/
structure seqmap_t where
  fn : List Nat
  seqs : List (List Nat × List Nat)
deriving DecidableEq, Repr

/-- Embedding of `seqmap_crc64` (seqmap.c): checksum over the names and
packed sequences of the map. -/
def seqmap_crc64 (M : seqmap_t) : Nat :=
  M.seqs.foldl (fun c p => crc64_update p.2 (crc64_update p.1 c)) 0

/-- Embedding of the per-sequence loop of `seqmap_check_quip_header_info`:
compare stored name length, name bytes and sequence length against the
supplied map, consuming the stream. -/
def seqmap_check_seqs : List (List Nat × List Nat) → List Nat → Except QuipErr (List Nat)
  | [], s => .ok s
  | p :: rest, s => do
      let (seqname_len, s) ← read_uint32 s
      if seqname_len ≠ p.1.length then .error .wrongRef else
      let name := s.take seqname_len
      let s := s.drop seqname_len
      if name ≠ p.1 then .error .wrongRef else do
      let (l, s) ← read_uint64 s
      if l ≠ p.2.length % 2 ^ 64 then .error .wrongRef else
      seqmap_check_seqs rest s

/-- Embedding of `seqmap_check_quip_header_info` (seqmap.c): verify the
reference hash, skip the stored file name, compare the sequence count and
then every sequence entry. -/
def seqmap_check_quip_header_info (s : List Nat) (M : seqmap_t) : Except QuipErr (List Nat) := do
  let (h, s) ← read_uint64 s
  if seqmap_crc64 M % 2 ^ 64 ≠ h then .error .wrongRef else do
  let (fnlen, s) ← read_uint32 s
  let s := s.drop fnlen
  let (n, s) ← read_uint32 s
  if M.seqs.length % 2 ^ 32 ≠ n then .error .wrongRef else
  seqmap_check_seqs M.seqs s

/-! ### Decoder-side modelled codec parsers -/

/-- Modelled from the spec: `idenc_decode` over the in-memory buffer
cursor; inverse of `idenc_encode_bytes`. -/
def idenc_decode_bytes (s : List Nat) : Except QuipErr (List Nat × List Nat) := do
  let (n, s) ← read_uint32 s
  if s.length < n then .error .eof else .ok (s.take n, s.drop n)

/-- Modelled from the spec: `samoptenc_decode`; inverse of
`samoptenc_encode_bytes`. -/
def samoptenc_decode_bytes (s : List Nat) : Except QuipErr (List Nat × List Nat) := do
  let (n, s) ← read_uint32 s
  if s.length < n then .error .eof else .ok (s.take n, s.drop n)

/-- Modelled from the spec: `disassembler_read` of `n` bases from the
sequence buffer; inverse of `assembler_encode_bytes` given `n`. -/
def disassembler_read_bytes (n : Nat) (s : List Nat) : Except QuipErr (List Nat × List Nat) :=
  if s.length < n then .error .eof else .ok (s.take n, s.drop n)

/-- Modelled from the spec: `qualenc_decode` of an `n`-base read's quality
string with active base `base`; inverse of `qualenc_encode_bytes` when the
bases agree. -/
def qualenc_decode_bytes (base : Int) (n : Nat) (s : List Nat) :
    Except QuipErr (List Nat × List Nat) := do
  let (flag, s) ← read_uint8 s
  if flag = 0 then .ok ([], s)
  else if s.length < n then .error .eof
  else .ok ((s.take n).map (fun o => byteOfChar (base + charOfByte o)), s.drop n)

/-! ### The decoder (`quip_quip_in_t` and friends) -/

/-- The sub-streams named by the checksum warnings. -/
inductive SubStream where
  | ids
  | auxs
  | seqs
  | quals
deriving DecidableEq, Repr

/-- One `quip_warning` emission: the sub-stream whose checksum failed and
the block number named in the message. -/
structure Warning where
  stream : SubStream
  block : Nat
deriving DecidableEq, Repr

/-- Embedding of `quip_quip_in_t` (quipfmt.c line 645).  `input` is the
outer reader's remaining byte stream; the four buffers hold the not yet
consumed suffix of each block's compressed region (the `*_pos` cursors are
implicit); `warnings` is the ghost trace of `quip_warning` emissions. -/
structure quip_quip_in_t where
  input : List Nat
  chunk : List short_read
  chunk_pos : Nat
  pending_reads : Nat
  block_num : Nat
  exp_id_crc : Nat
  exp_aux_crc : Nat
  exp_seq_crc : Nat
  exp_qual_crc : Nat
  id_crc : Nat
  aux_crc : Nat
  seq_crc : Nat
  qual_crc : Nat
  readlen_vals : List (Nat × Nat)
  readlen_idx : Nat
  readlen_off : Nat
  scheme_vals : List (Int × Nat)
  scheme_idx : Nat
  scheme_off : Nat
  idbuf : List Nat
  auxbuf : List Nat
  seqbuf : List Nat
  qualbuf : List Nat
  qualenc_base : Int
  aux_data : List Nat
  aux_data_n : Nat
  aux_data_type : Nat
  end_of_stream : Bool
  warnings : List Warning
deriving DecidableEq, Repr

/-- Embedding of `check_header_version` (quipfmt.c lines 36-51): accept
versions 2 and 3, reject every other value. -/
def check_header_version (v : Nat) : Except QuipErr Unit :=
  if v = 2 ∨ v = 3 then .ok () else .error .badVersion

/-- Embedding of `quip_quip_in_open` (quipfmt.c lines 874-973): validate
the eight header bytes, check the reference section when flagged, read the
assembly parameter when flagged, then read the aux payload — issuing a
single reader call for the declared length and recording that length
regardless of how many bytes were actually delivered (lines 958-964). -/
def quip_quip_in_open (s : List Nat) (ref : Option seqmap_t) :
    Except QuipErr quip_quip_in_t := do
  let header := s.take 8
  if header.length < 8 ∨ header.take 6 ≠ quip_header_magic then .error .notQuip else do
  let s := s.drop 8
  let version := header.getD 6 0
  let flags := header.getD 7 0
  let _ ← check_header_version version
  let assembly_based := flags / 2 % 2 = 1
  let ref_based := flags % 2 = 1
  let s ←
    if ref_based then
      match ref with
      | none => .error .missingRef
      | some M => seqmap_check_quip_header_info s M
    else .ok s
  let s ←
    if assembly_based then do
      let (_, s) ← read_uint64 s
      .ok s
    else .ok s
  let (aux_data_type, s) ← read_uint8 s
  let (aux_size, s) ← read_uint64 s
  let delivered := s.take aux_size
  let s := s.drop aux_size
  .ok { input := s
        chunk := []
        chunk_pos := 0
        pending_reads := 0
        block_num := 0
        exp_id_crc := 0
        exp_aux_crc := 0
        exp_seq_crc := 0
        exp_qual_crc := 0
        id_crc := 0
        aux_crc := 0
        seq_crc := 0
        qual_crc := 0
        readlen_vals := []
        readlen_idx := 0
        readlen_off := 0
        scheme_vals := []
        scheme_idx := 0
        scheme_off := 0
        idbuf := []
        auxbuf := []
        seqbuf := []
        qualbuf := []
        qualenc_base := 33
        aux_data := delivered
        aux_data_n := aux_size
        aux_data_type := aux_data_type
        end_of_stream := false
        warnings := [] }

end Quip

namespace Quip

/-- Embedding of the read-length RLE loop of `quip_in_read_block_header`
(quipfmt.c lines 1019-1039): read `(u32 value, u32 run_count)` pairs until
the `u32` running count reaches `pending`. -/
def parse_readlen_rle (pending cnt : Nat) (s : List Nat) :
    Except QuipErr (List (Nat × Nat) × List Nat) :=
  if cnt < pending then
    match s with
    | a0 :: a1 :: a2 :: a3 :: c0 :: c1 :: c2 :: c3 :: rest =>
        let v := a0 % 256 * 2 ^ 24 + a1 % 256 * 2 ^ 16 + a2 % 256 * 2 ^ 8 + a3 % 256
        let c := c0 % 256 * 2 ^ 24 + c1 % 256 * 2 ^ 16 + c2 % 256 * 2 ^ 8 + c3 % 256
        match parse_readlen_rle pending ((cnt + c) % 2 ^ 32) rest with
        | .ok (l, s2) => .ok ((v, c) :: l, s2)
        | .error e => .error e
    | _ => .error .eof
  else .ok ([], s)
termination_by s.length
decreasing_by simp; omega

/-- Embedding of the quality-scheme RLE loop of `quip_in_read_block_header`
(lines 1042-1062): read `(u8 base, u32 run_count)` pairs until the running
count reaches `pending`; the base byte is cast to `char`. -/
def parse_scheme_rle (pending cnt : Nat) (s : List Nat) :
    Except QuipErr (List (Int × Nat) × List Nat) :=
  if cnt < pending then
    match s with
    | b :: c0 :: c1 :: c2 :: c3 :: rest =>
        let v := charOfByte b
        let c := c0 % 256 * 2 ^ 24 + c1 % 256 * 2 ^ 16 + c2 % 256 * 2 ^ 8 + c3 % 256
        match parse_scheme_rle pending ((cnt + c) % 2 ^ 32) rest with
        | .ok (l, s2) => .ok ((v, c) :: l, s2)
        | .error e => .error e
    | _ => .error .eof
  else .ok ([], s)
termination_by s.length
decreasing_by simp; omega

/-- Embedding of the zero-run skip loop of `quip_in_read_block_header`
(lines 1134-1138): advance past leading zero-count runs, but never past the
last run. -/
def skip_zero_runs : List (Int × Nat) → Nat
  | [] => 0
  | [_] => 0
  | p :: q :: rest => if p.2 = 0 then skip_zero_runs (q :: rest) + 1 else 0

/-- Embedding of `quip_in_read_block_header` (quipfmt.c lines 1007-1146):
parse the block header, load the four compressed regions (failing on a
short read), position the RLE cursors, hand the first used scheme base to
the quality codec and zero the running checksums. -/
def quip_in_read_block_header (D : quip_quip_in_t) : Except QuipErr quip_quip_in_t := do
  let (pending, s) ← read_uint32 D.input
  if pending = 0 then .ok { D with input := s, end_of_stream := true } else do
  let (_, s) ← read_uint32 s
  let (rl, s) ← parse_readlen_rle pending 0 s
  let (sch, s) ← parse_scheme_rle pending 0 s
  let (_, s) ← read_uint32 s
  let (id_byte_cnt, s) ← read_uint32 s
  let (exp_id, s) ← read_uint64 s
  let (_, s) ← read_uint32 s
  let (aux_byte_cnt, s) ← read_uint32 s
  let (exp_aux, s) ← read_uint64 s
  let (_, s) ← read_uint32 s
  let (seq_byte_cnt, s) ← read_uint32 s
  let (exp_seq, s) ← read_uint64 s
  let (_, s) ← read_uint32 s
  let (qual_byte_cnt, s) ← read_uint32 s
  let (exp_qual, s) ← read_uint64 s
  let idp := s.take id_byte_cnt
  if idp.length < id_byte_cnt then .error .eof else do
  let s := s.drop id_byte_cnt
  let auxp := s.take aux_byte_cnt
  if auxp.length < aux_byte_cnt then .error .eof else do
  let s := s.drop aux_byte_cnt
  let seqp := s.take seq_byte_cnt
  if seqp.length < seq_byte_cnt then .error .eof else do
  let s := s.drop seq_byte_cnt
  let qualp := s.take qual_byte_cnt
  if qualp.length < qual_byte_cnt then .error .eof else do
  let s := s.drop qual_byte_cnt
  let idx0 := skip_zero_runs sch
  .ok { D with input := s
               pending_reads := pending
               readlen_vals := rl
               readlen_idx := 0
               readlen_off := 0
               scheme_vals := sch
               scheme_idx := idx0
               scheme_off := 0
               qualenc_base := (sch.getD idx0 (33, 0)).1
               idbuf := idp
               auxbuf := auxp
               seqbuf := seqp
               qualbuf := qualp
               exp_id_crc := exp_id
               exp_aux_crc := exp_aux
               exp_seq_crc := exp_seq
               exp_qual_crc := exp_qual
               id_crc := 0
               aux_crc := 0
               seq_crc := 0
               qual_crc := 0
               block_num := D.block_num + 1 }

/-- Embedding of `id_decompressor_thread`'s loop (quipfmt.c lines 717-732):
decode `cnt` ids from the id buffer, folding the running checksum. -/
def id_decompressor_loop :
    Nat → List Nat → Nat → Except QuipErr (List (List Nat) × List Nat × Nat)
  | 0, buf, crc => .ok ([], buf, crc)
  | n + 1, buf, crc => do
      let (i, buf) ← idenc_decode_bytes buf
      let (rest, buf2, crc2) ← id_decompressor_loop n buf (crc64_update i crc)
      .ok (i :: rest, buf2, crc2)

/-- Embedding of `aux_decompressor_thread`'s loop (lines 735-750). -/
def aux_decompressor_loop :
    Nat → List Nat → Nat → Except QuipErr (List (List Nat) × List Nat × Nat)
  | 0, buf, crc => .ok ([], buf, crc)
  | n + 1, buf, crc => do
      let (a, buf) ← samoptenc_decode_bytes buf
      let (rest, buf2, crc2) ← aux_decompressor_loop n buf (crc64_update a crc)
      .ok (a :: rest, buf2, crc2)

/-- Embedding of the read-length cursor step shared by the decode workers
(e.g. lines 766-770): fetch the current run's value, then advance, moving
to the next run when the count is exhausted. -/
def readlen_next (rl : List (Nat × Nat)) (idx off : Nat) : Nat × Nat × Nat :=
  let n := (rl.getD idx (0, 0)).1
  if off + 1 ≥ (rl.getD idx (0, 0)).2 then (n, idx + 1, 0) else (n, idx, off + 1)

/-- Embedding of `seq_decompressor_thread`'s loop (lines 753-780): walk a
private copy of the read-length cursor and decode each sequence. -/
def seq_decompressor_loop :
    Nat → List (Nat × Nat) → Nat → Nat → List Nat → Nat →
    Except QuipErr (List (List Nat) × List Nat × Nat)
  | 0, _, _, _, buf, crc => .ok ([], buf, crc)
  | cnt + 1, rl, idx, off, buf, crc => do
      let (n, idx, off) := readlen_next rl idx off
      let (sq, buf) ← disassembler_read_bytes n buf
      let (rest, buf2, crc2) ← seq_decompressor_loop cnt rl idx off buf (crc64_update sq crc)
      .ok (sq :: rest, buf2, crc2)

/-- Embedding of the quality-scheme cursor step of
`qual_decompressor_thread` (lines 804-810): the offset is pre-incremented,
so the step happens before the current read is decoded, and the base
changes only while another run exists. -/
def scheme_next (sch : List (Int × Nat)) (idx off : Nat) (base : Int) : Nat × Nat × Int :=
  if off + 1 ≥ (sch.getD idx (33, 0)).2 then
    (idx + 1, 0, if idx + 1 < sch.length then (sch.getD (idx + 1) (33, 0)).1 else base)
  else (idx, off + 1, base)

/-- Embedding of `qual_decompressor_thread`'s loop (lines 783-820): walk
private copies of the read-length and quality-scheme cursors and decode
each quality string with the base active at that point. -/
def qual_decompressor_loop :
    Nat → List (Nat × Nat) → Nat → Nat → List (Int × Nat) → Nat → Nat → Int → List Nat → Nat →
    Except QuipErr (List (List Nat) × List Nat × Nat × Int)
  | 0, _, _, _, _, _, _, base, buf, crc => .ok ([], buf, crc, base)
  | cnt + 1, rl, ridx, roff, sch, sidx, soff, base, buf, crc => do
      let (n, ridx, roff) := readlen_next rl ridx roff
      let (sidx, soff, base) := scheme_next sch sidx soff base
      let (q, buf) ← qualenc_decode_bytes base n buf
      let (rest, buf2, crc2, base2) ←
        qual_decompressor_loop cnt rl ridx roff sch sidx soff base buf (crc64_update q crc)
      .ok (q :: rest, buf2, crc2, base2)

/-- Reassembly of the worker outputs into the decoder's chunk buffer: the
four threads fill disjoint fields of the same `chunk[i]` records. -/
def assemble_chunk :
    List (List Nat) → List (List Nat) → List (List Nat) → List (List Nat) → List short_read
  | i :: is2, sq :: sqs, q :: qs, a :: as2 => ⟨i, sq, q, a⟩ :: assemble_chunk is2 sqs qs as2
  | _, _, _, _ => []

/-- Embedding of the shared cursor advance in `quip_quip_read` (lines
1223-1232): the parent replays, once per decoded read, the same
pre-increment step the workers used on their private copies. -/
def cursor_advance {α : Type} (l : List (α × Nat)) (dflt : α) :
    Nat → Nat → Nat → Nat × Nat
  | 0, idx, off => (idx, off)
  | cnt + 1, idx, off =>
      if off + 1 ≥ (l.getD idx (dflt, 0)).2 then cursor_advance l dflt cnt (idx + 1) 0
      else cursor_advance l dflt cnt idx (off + 1)

/-- The checksum comparison block of `quip_quip_read` (quipfmt.c lines
1158-1180): one warning per mismatching sub-stream, in id/aux/seq/qual
order, naming the block just consumed. -/
def crc_warnings (D : quip_quip_in_t) : List Warning :=
  (if D.id_crc ≠ D.exp_id_crc then [⟨.ids, D.block_num⟩] else []) ++
  (if D.aux_crc ≠ D.exp_aux_crc then [⟨.auxs, D.block_num⟩] else []) ++
  (if D.seq_crc ≠ D.exp_seq_crc then [⟨.seqs, D.block_num⟩] else []) ++
  (if D.qual_crc ≠ D.exp_qual_crc then [⟨.quals, D.block_num⟩] else [])

/-- Embedding of `quip_quip_read` (quipfmt.c lines 1149-1236): hand out a
buffered read if one remains; at a block boundary compare the four running
checksums against the expected ones, emitting one warning per mismatching
sub-stream, then read the next block header; stop at the terminator;
otherwise decode the next chunk of `min(chunk_size, pending_reads)` reads
with the four decode workers and return its first read. -/
def quip_quip_read (D : quip_quip_in_t) :
    Except QuipErr (Option short_read × quip_quip_in_t) :=
  if D.chunk_pos < D.chunk.length then
    .ok (some (D.chunk.getD D.chunk_pos default), { D with chunk_pos := D.chunk_pos + 1 })
  else if D.end_of_stream then .ok (none, D)
  else do
    let D ←
      if D.pending_reads = 0 then
        quip_in_read_block_header { D with warnings := D.warnings ++ crc_warnings D }
      else .ok D
    if D.pending_reads = 0 then .ok (none, D)
    else do
      let cnt := if D.pending_reads ≥ chunk_size then chunk_size else D.pending_reads
      let (ids2, idbuf, id_crc) ← id_decompressor_loop cnt D.idbuf D.id_crc
      let (auxs2, auxbuf, aux_crc) ← aux_decompressor_loop cnt D.auxbuf D.aux_crc
      let (seqs2, seqbuf, seq_crc) ←
        seq_decompressor_loop cnt D.readlen_vals D.readlen_idx D.readlen_off D.seqbuf D.seq_crc
      let (quals2, qualbuf, qual_crc, qbase) ←
        qual_decompressor_loop cnt D.readlen_vals D.readlen_idx D.readlen_off
          D.scheme_vals D.scheme_idx D.scheme_off D.qualenc_base D.qualbuf D.qual_crc
      let chunk := assemble_chunk ids2 seqs2 quals2 auxs2
      let (ridx, roff) := cursor_advance D.readlen_vals 0 cnt D.readlen_idx D.readlen_off
      let (sidx, soff) := cursor_advance D.scheme_vals (33 : Int) cnt D.scheme_idx D.scheme_off
      .ok (some (chunk.getD 0 default),
        { D with chunk := chunk
                 chunk_pos := 1
                 pending_reads := D.pending_reads - cnt
                 idbuf := idbuf
                 auxbuf := auxbuf
                 seqbuf := seqbuf
                 qualbuf := qualbuf
                 id_crc := id_crc
                 aux_crc := aux_crc
                 seq_crc := seq_crc
                 qual_crc := qual_crc
                 readlen_idx := ridx
                 readlen_off := roff
                 scheme_idx := sidx
                 scheme_off := soff
                 qualenc_base := qbase })

/-- Drive `quip_quip_read` until it reports end of stream, collecting the
reads in order and the checksum warnings emitted along the way.  `fuel`
only bounds the loop; every theorem below supplies enough of it. -/
def quip_read_all : Nat → quip_quip_in_t → Except QuipErr (List short_read × List Warning)
  | 0, _ => .error .fuelOut
  | fuel + 1, D => do
      let (ro, D) ← quip_quip_read D
      match ro with
      | none => .ok ([], D.warnings)
      | some r => do
          let (rs, ws) ← quip_read_all fuel D
          .ok (r :: rs, ws)

/-- One full decode run: open the container, then read every read. -/
def decodeContainer (fuel : Nat) (s : List Nat) (ref : Option seqmap_t) :
    Except QuipErr (List short_read × List Warning) := do
  let D ← quip_quip_in_open s ref
  quip_read_all fuel D

end Quip

namespace Quip

/-- Embedding of the reference-section skip loop of `quip_list`
(quipfmt.c lines 1264-1272). -/
def quip_list_ref_seqs : Nat → List Nat → Except QuipErr (List Nat)
  | 0, s => .ok s
  | i + 1, s => do
      let (seqname_len, s) ← read_uint32 s
      if s.length < seqname_len then .error .eof else do
      let s := s.drop seqname_len
      let (_, s) ← read_uint64 s
      quip_list_ref_seqs i s

/-- Embedding of the per-block loop of `quip_list` (quipfmt.c lines
1285-1344): consume each block header with the same rules as the reader
and skip the four compressed regions by byte count. -/
def quip_list_blocks : Nat → List Nat → Except QuipErr Unit
  | 0, _ => .error .fuelOut
  | fuel + 1, s => do
      let (block_reads, s) ← read_uint32 s
      if block_reads = 0 then .ok () else do
      let (_, s) ← read_uint32 s
      let (_, s) ← parse_readlen_rle block_reads 0 s
      let (_, s) ← parse_scheme_rle block_reads 0 s
      let (_, s) ← read_uint32 s
      let (n1, s) ← read_uint32 s
      let (_, s) ← read_uint64 s
      let (_, s) ← read_uint32 s
      let (n2, s) ← read_uint32 s
      let (_, s) ← read_uint64 s
      let (_, s) ← read_uint32 s
      let (n3, s) ← read_uint32 s
      let (_, s) ← read_uint64 s
      let (_, s) ← read_uint32 s
      let (n4, s) ← read_uint32 s
      let (_, s) ← read_uint64 s
      let s := s.drop (n1 + n2 + n3 + n4)
      quip_list_blocks fuel s

/-- Embedding of `quip_list` (quipfmt.c lines 1239-1345): the list/inspect
entry point, which validates the container header with the same rules as
the reader and then walks the blocks without arithmetic decoding. -/
def quip_list (fuel : Nat) (s : List Nat) : Except QuipErr Unit := do
  let header := s.take 8
  if header.length < 8 ∨ header.take 6 ≠ quip_header_magic then .error .notQuip else do
  let s := s.drop 8
  let _ ← check_header_version (header.getD 6 0)
  let flags := header.getD 7 0
  let s ←
    if flags % 2 = 1 then do
      let (_, s) ← read_uint64 s
      let (fnlen, s) ← read_uint32 s
      if s.length < fnlen then .error .eof else do
      let s := s.drop fnlen
      let (n, s) ← read_uint32 s
      quip_list_ref_seqs n s
    else .ok s
  let s ←
    if flags / 2 % 2 = 1 then do
      let (_, s) ← read_uint64 s
      .ok s
    else .ok s
  let (_, s) ← read_uint8 s
  let (lead_bytes, s) ← read_uint64 s
  let s := s.drop lead_bytes
  quip_list_blocks fuel s

end Quip

namespace Quip

/-- Decidable equality for `Except`, used to settle concrete runs. -/
instance instExceptDecEq {ε α : Type} [DecidableEq ε] [DecidableEq α] :
    DecidableEq (Except ε α) := fun x y =>
  match x, y with
  | .ok a, .ok b => if h : a = b then .isTrue (by rw [h]) else .isFalse (by simp [h])
  | .error a, .error b => if h : a = b then .isTrue (by rw [h]) else .isFalse (by simp [h])
  | .ok _, .error _ => .isFalse (by simp)
  | .error _, .ok _ => .isFalse (by simp)

/-- The run-length list `quip_out_flush_chunk` accumulates for a list of
read lengths, starting empty. -/
def rleEncode (ls : List Nat) : List (Nat × Nat) := ls.foldl quip_out_add_readlen []

/-- Expansion of a run-length list back into its value sequence. -/
def rleExpand {α : Type} (rl : List (α × Nat)) : List α :=
  (rl.map (fun p => List.replicate p.2 p.1)).flatten

/-- Checksum over a sub-stream: the per-read `crc64_update` fold both sides
of the codec perform, starting from 0. -/
def stream_crc (ss : List (List Nat)) : Nat :=
  ss.foldl (fun c s => crc64_update s c) 0

/-- Description of one block of a container as the decoder theorems
quantify over it: the reads it carries, its quality-scheme base byte, and
the header fields the encoder would derive but which the wire may carry
with arbitrary values (`bases_in_block`, the four uncompressed sizes, the
four stored checksums). -/
structure BlockDesc where
  reads : List short_read
  base : Nat
  bases_field : Nat
  usz_id : Nat
  usz_aux : Nat
  usz_seq : Nat
  usz_qual : Nat
  crc_id : Nat
  crc_aux : Nat
  crc_seq : Nat
  crc_qual : Nat
deriving DecidableEq, Repr

/-- The id sub-stream region of a described block. -/
def genIdPayload (b : BlockDesc) : List Nat :=
  (b.reads.map (fun r => idenc_encode_bytes r.id)).flatten

/-- The aux sub-stream region of a described block. -/
def genAuxPayload (b : BlockDesc) : List Nat :=
  (b.reads.map (fun r => samoptenc_encode_bytes r.aux)).flatten

/-- The seq sub-stream region of a described block. -/
def genSeqPayload (b : BlockDesc) : List Nat :=
  (b.reads.map (fun r => assembler_encode_bytes r.seq)).flatten

/-- The qual sub-stream region of a described block, coded against the
block's scheme base. -/
def genQualPayload (b : BlockDesc) : List Nat :=
  (b.reads.map (fun r => qualenc_encode_bytes (charOfByte b.base) r.qual)).flatten

/-- Wire bytes of a described block, following the §6.1 block layout the
decoder consumes: counts, read-length RLE, a single quality-scheme run
covering all reads, the four size/checksum triples, the four compressed
regions. -/
def genBlockBytes (b : BlockDesc) : List Nat :=
  write_uint32 b.reads.length ++ write_uint32 b.bases_field ++
  ((rleEncode (b.reads.map (fun r => r.seq.length))).map
      (fun p => write_uint32 p.1 ++ write_uint32 p.2)).flatten ++
  write_uint8 b.base ++ write_uint32 b.reads.length ++
  write_uint32 b.usz_id ++ write_uint32 (genIdPayload b).length ++ write_uint64 b.crc_id ++
  write_uint32 b.usz_aux ++ write_uint32 (genAuxPayload b).length ++ write_uint64 b.crc_aux ++
  write_uint32 b.usz_seq ++ write_uint32 (genSeqPayload b).length ++ write_uint64 b.crc_seq ++
  write_uint32 b.usz_qual ++ write_uint32 (genQualPayload b).length ++ write_uint64 b.crc_qual ++
  genIdPayload b ++ genAuxPayload b ++ genSeqPayload b ++ genQualPayload b

/-- A full container around described blocks: header, blocks, terminator. -/
def containerOf (bs : List BlockDesc) : List Nat :=
  headerBytes ++ (bs.map genBlockBytes).flatten ++ write_uint32 0

/-- Well-formedness of a described block: a non-empty single chunk of
reads, in-range field widths, byte-valued qualities whose length matches
the read length when present, and `uint64`-valued stored checksums. -/
def wfBlock (b : BlockDesc) : Prop :=
  0 < b.reads.length ∧ b.reads.length ≤ chunk_size ∧ b.base < 256 ∧
  b.crc_id < 2 ^ 64 ∧ b.crc_aux < 2 ^ 64 ∧ b.crc_seq < 2 ^ 64 ∧ b.crc_qual < 2 ^ 64 ∧
  (genIdPayload b).length < 2 ^ 32 ∧ (genAuxPayload b).length < 2 ^ 32 ∧
  (genSeqPayload b).length < 2 ^ 32 ∧ (genQualPayload b).length < 2 ^ 32 ∧
  ∀ r ∈ b.reads,
    r.id.length < 2 ^ 32 ∧ r.aux.length < 2 ^ 32 ∧ r.seq.length < 2 ^ 32 ∧
    (r.qual = [] ∨ r.qual.length = r.seq.length) ∧ ∀ q ∈ r.qual, q < 256

/-- The checksum warnings the decoder must emit for block number `k`
described by `b`: one per sub-stream whose stored checksum differs from the
checksum of the sub-stream's uncompressed bytes. -/
def warningsFor (k : Nat) (b : BlockDesc) : List Warning :=
  (if stream_crc (b.reads.map (fun r => r.id)) ≠ b.crc_id then [⟨.ids, k⟩] else []) ++
  (if stream_crc (b.reads.map (fun r => r.aux)) ≠ b.crc_aux then [⟨.auxs, k⟩] else []) ++
  (if stream_crc (b.reads.map (fun r => r.seq)) ≠ b.crc_seq then [⟨.seqs, k⟩] else []) ++
  (if stream_crc (b.reads.map (fun r => r.qual)) ≠ b.crc_qual then [⟨.quals, k⟩] else [])

/-- All checksum warnings of a block sequence whose first block is numbered
`k + 1`. -/
def warningsFrom (k : Nat) : List BlockDesc → List Warning
  | [] => []
  | b :: rest => warningsFor (k + 1) b ++ warningsFrom (k + 1) rest

/-- Fuel sufficient to decode the described container: one `quip_quip_read`
call per read plus the final end-of-stream call. -/
def fuelFor (bs : List BlockDesc) : Nat := (bs.map (·.reads.length)).sum + 1

/-- The decoder state `quip_quip_in_open` produces on a reference-free,
assembly-free, empty-aux container whose block section is `rest`. -/
def openedState (rest : List Nat) : quip_quip_in_t where
  input := rest
  chunk := []
  chunk_pos := 0
  pending_reads := 0
  block_num := 0
  exp_id_crc := 0
  exp_aux_crc := 0
  exp_seq_crc := 0
  exp_qual_crc := 0
  id_crc := 0
  aux_crc := 0
  seq_crc := 0
  qual_crc := 0
  readlen_vals := []
  readlen_idx := 0
  readlen_off := 0
  scheme_vals := []
  scheme_idx := 0
  scheme_off := 0
  idbuf := []
  auxbuf := []
  seqbuf := []
  qualbuf := []
  qualenc_base := 33
  aux_data := []
  aux_data_n := 0
  aux_data_type := QUIP_FMT_NULL
  end_of_stream := false
  warnings := []

/-- The decoder-state facts the block-by-block induction carries across
block boundaries: the buffered chunk is exhausted, the stream has not
terminated, the previous block is fully consumed, and the fields the next
transition inspects are pinned. -/
def Boundary (D : quip_quip_in_t) (k : Nat) (w : List Warning) (rest : List Nat) : Prop :=
  D.chunk_pos = D.chunk.length ∧ D.end_of_stream = false ∧ D.pending_reads = 0 ∧
  D.block_num = k ∧ D.input = rest ∧ D.warnings = w

end Quip

namespace Quip

/-- Total sequence bytes of a list of reads. -/
def sumSeqLens (reads : List short_read) : Nat := (reads.map (fun r => r.seq.length)).sum

/-- Sequence bytes currently sitting in the encoder's chunk buffer. -/
def chunkBases (C : quip_quip_out_t) : Nat := sumSeqLens C.chunk

/-- Whether a decode-side entry point failed with one of the two
malformed-header errors (bad magic / unsupported version). -/
def isHeaderErr {α : Type} : Except QuipErr α → Prop
  | .error .notQuip => True
  | .error .badVersion => True
  | _ => False

/-- The decoder state `quip_quip_read` reaches right after crossing a block
boundary into the block described by `b`: the header of `b` has been parsed
(consuming its bytes from the input, leaving `rest2`), the whole block has
been decoded as one chunk, its first read has been handed out, and the
running checksums hold the checksums of the decoded sub-streams. -/
def postChunkState (D : quip_quip_in_t) (b : BlockDesc) (rest2 : List Nat) : quip_quip_in_t where
  input := rest2
  chunk := b.reads
  chunk_pos := 1
  pending_reads := 0
  block_num := D.block_num + 1
  exp_id_crc := b.crc_id
  exp_aux_crc := b.crc_aux
  exp_seq_crc := b.crc_seq
  exp_qual_crc := b.crc_qual
  id_crc := stream_crc (b.reads.map (fun r => r.id))
  aux_crc := stream_crc (b.reads.map (fun r => r.aux))
  seq_crc := stream_crc (b.reads.map (fun r => r.seq))
  qual_crc := stream_crc (b.reads.map (fun r => r.qual))
  readlen_vals := rleEncode (b.reads.map (fun r => r.seq.length))
  readlen_idx :=
    (cursor_advance (rleEncode (b.reads.map (fun r => r.seq.length))) 0 b.reads.length 0 0).1
  readlen_off :=
    (cursor_advance (rleEncode (b.reads.map (fun r => r.seq.length))) 0 b.reads.length 0 0).2
  scheme_vals := [(charOfByte b.base, b.reads.length)]
  scheme_idx :=
    (cursor_advance [(charOfByte b.base, b.reads.length)] (33 : Int) b.reads.length 0 0).1
  scheme_off :=
    (cursor_advance [(charOfByte b.base, b.reads.length)] (33 : Int) b.reads.length 0 0).2
  idbuf := []
  auxbuf := []
  seqbuf := []
  qualbuf := []
  qualenc_base := charOfByte b.base
  aux_data := D.aux_data
  aux_data_n := D.aux_data_n
  aux_data_type := D.aux_data_type
  end_of_stream := D.end_of_stream
  warnings := D.warnings ++ crc_warnings D

/-- The encoder-state invariant the write loop maintains: not yet finished,
the output holds the header followed by the serialized emitted blocks, the
quality-scheme list is never empty, a base was only counted alongside some
read, and every emitted block has a positive read count and — since
`quip_quip_write` only flushes once the base count strictly exceeds
`block_size` — more than `block_size` bases. -/
def EncInv (C : quip_quip_out_t) : Prop :=
  C.finished = false ∧
  C.out = headerBytes ++ (C.blocks.map blockBytes).flatten ∧
  C.scheme ≠ [] ∧
  (C.buffered_reads = 0 → C.buffered_bases = 0) ∧
  ∀ b ∈ C.blocks, 0 < b.reads_in_block ∧ block_size < b.bases_in_block

/-- What holds of the encoder state after `quip_out_finish`: the stream is
finished, the output is the header, the serialized blocks and one
terminating zero `u32`, every block holds a positive read count, and every
block but the last holds more than `block_size` bases. -/
def EncodedOk (C : quip_quip_out_t) : Prop :=
  C.finished = true ∧
  C.out = headerBytes ++ (C.blocks.map blockBytes).flatten ++ write_uint32 0 ∧
  (∀ b ∈ C.blocks, 0 < b.reads_in_block) ∧
  ∀ b ∈ C.blocks.dropLast, block_size < b.bases_in_block

/-- The part of a block description the decoded output can depend on: the
reads themselves and the four stored checksums. -/
def coreOf (b : BlockDesc) : List short_read × Nat × Nat × Nat × Nat :=
  (b.reads, b.crc_id, b.crc_aux, b.crc_seq, b.crc_qual)

/-- The malformed-header condition: fewer than eight container bytes, a
magic mismatch, or a version byte other than 2 or 3. -/
def headerBad (s : List Nat) : Prop :=
  s.length < 8 ∨ s.take 6 ≠ quip_header_magic ∨
    ¬ (s.getD 6 0 = 2 ∨ s.getD 6 0 = 3)

instance wfBlock_decidable (b : BlockDesc) : Decidable (wfBlock b) := by
  unfold wfBlock
  infer_instance

instance headerBad_decidable (s : List Nat) : Decidable (headerBad s) := by
  unfold headerBad
  infer_instance

end Quip

namespace Quip

/-! ### Byte-level lemmas -/

theorem mod_split8 (x k : Nat) :
    x % (2 ^ k * 256) = x / 2 ^ k % 256 * 2 ^ k + x % 2 ^ k := by
  have h1 : x / 2 ^ k % 256 = x % (2 ^ k * 256) / 2 ^ k :=
    (Nat.mod_mul_right_div_self x (2 ^ k) 256).symm
  have h2 : x % (2 ^ k * 256) % 2 ^ k = x % 2 ^ k :=
    Nat.mod_mod_of_dvd x (dvd_mul_right (2 ^ k) 256)
  rw [h1, ← h2, Nat.div_add_mod']

theorem usplit32 (x : Nat) :
    x / 2 ^ 24 % 256 * 2 ^ 24 + x / 2 ^ 16 % 256 * 2 ^ 16 + x / 2 ^ 8 % 256 * 2 ^ 8 + x % 256 =
      x % 2 ^ 32 := by
  have e1 := mod_split8 x 24
  have e2 := mod_split8 x 16
  have e3 := mod_split8 x 8
  norm_num at e1 e2 e3
  omega

theorem usplit64 (x : Nat) :
    x / 2 ^ 56 % 256 * 2 ^ 56 + x / 2 ^ 48 % 256 * 2 ^ 48 + x / 2 ^ 40 % 256 * 2 ^ 40 +
      x / 2 ^ 32 % 256 * 2 ^ 32 + x / 2 ^ 24 % 256 * 2 ^ 24 + x / 2 ^ 16 % 256 * 2 ^ 16 +
      x / 2 ^ 8 % 256 * 2 ^ 8 + x % 256 = x % 2 ^ 64 := by
  have e1 := mod_split8 x 56
  have e2 := mod_split8 x 48
  have e3 := mod_split8 x 40
  have e4 := mod_split8 x 32
  have e5 := mod_split8 x 24
  have e6 := mod_split8 x 16
  have e7 := mod_split8 x 8
  norm_num at e1 e2 e3 e4 e5 e6 e7
  omega

theorem read_uint8_write (x : Nat) (r : List Nat) :
    read_uint8 (write_uint8 x ++ r) = .ok (x % 256, r) := by
  simp only [write_uint8, List.cons_append, List.nil_append, read_uint8,
    Except.ok.injEq, Prod.mk.injEq]
  exact ⟨by omega, trivial⟩

theorem read_uint32_write (x : Nat) (r : List Nat) :
    read_uint32 (write_uint32 x ++ r) = .ok (x % 2 ^ 32, r) := by
  have h := usplit32 x
  simp only [write_uint32, List.cons_append, List.nil_append, read_uint32,
    Except.ok.injEq, Prod.mk.injEq]
  exact ⟨by omega, trivial⟩

set_option maxHeartbeats 1600000 in
theorem read_uint64_write (x : Nat) (r : List Nat) :
    read_uint64 (write_uint64 x ++ r) = .ok (x % 2 ^ 64, r) := by
  have h := usplit64 x
  have m : ∀ y : Nat, y % 256 % 256 = y % 256 := fun y => Nat.mod_mod_of_dvd y dvd_rfl
  simp only [write_uint64, List.cons_append, List.nil_append, read_uint64,
    Except.ok.injEq, Prod.mk.injEq, m]
  exact ⟨h, trivial⟩

end Quip
namespace Quip

/-! ### Run-length list lemmas -/

theorem rleSum_nil {α : Type} : rleSum ([] : List (α × Nat)) = 0 := rfl

theorem rleSum_cons {α : Type} (p : α × Nat) (l : List (α × Nat)) :
    rleSum (p :: l) = p.2 + rleSum l := by simp [rleSum]

theorem rleSum_add_last {α : Type} (l : List (α × Nat)) (n : Nat) (h : l ≠ [])
    (hb : rleSum l + n < 2 ^ 32) :
    rleSum (rle_add_last l n) = rleSum l + n := by
  induction l with
  | nil => simp at h
  | cons p tl ih =>
    cases tl with
    | nil =>
      simp only [rle_add_last, rleSum, List.map_cons, List.map_nil, List.sum_cons,
        List.sum_nil] at hb ⊢
      omega
    | cons q tl2 =>
      rw [rleSum_cons] at hb
      rw [show rle_add_last (p :: q :: tl2) n = p :: rle_add_last (q :: tl2) n from rfl,
        rleSum_cons, rleSum_cons, ih (by simp) (by omega)]
      omega

theorem rleExpand_nil {α : Type} : rleExpand ([] : List (α × Nat)) = [] := rfl

theorem rleExpand_cons {α : Type} (p : α × Nat) (l : List (α × Nat)) :
    rleExpand (p :: l) = List.replicate p.2 p.1 ++ rleExpand l := by simp [rleExpand]

theorem rleExpand_add_last {α : Type} (l : List (α × Nat)) (d : α × Nat) (h : l ≠ [])
    (hb : rleSum l + 1 < 2 ^ 32) :
    rleExpand (rle_add_last l 1) = rleExpand l ++ [(l.getLastD d).1] := by
  induction l with
  | nil => simp at h
  | cons p tl ih =>
    cases tl with
    | nil =>
      rw [rleSum_cons] at hb
      rw [show rle_add_last [p] 1 = [(p.1, (p.2 + 1) % 2 ^ 32)] from rfl]
      rw [show ((p.2 + 1) % 2 ^ 32) = p.2 + 1 from Nat.mod_eq_of_lt (by
        rw [show rleSum ([] : List (α × Nat)) = 0 from rfl] at hb; omega)]
      simp [rleExpand, List.replicate_succ']
    | cons q tl2 =>
      rw [rleSum_cons] at hb
      rw [show rle_add_last (p :: q :: tl2) 1 = p :: rle_add_last (q :: tl2) 1 from rfl,
        rleExpand_cons, rleExpand_cons, ih (by simp) (by omega)]
      simp

theorem rleSum_add_readlen (rl : List (Nat × Nat)) (l : Nat)
    (hb : rleSum rl + 1 < 2 ^ 32) :
    rleSum (quip_out_add_readlen rl l) = rleSum rl + 1 := by
  unfold quip_out_add_readlen
  split
  · simp [rleSum]
  · next h =>
    push_neg at h
    exact rleSum_add_last rl 1 h.1 hb

theorem rleExpand_add_readlen (rl : List (Nat × Nat)) (l : Nat)
    (hl : l < 2 ^ 32) (hb : rleSum rl + 1 < 2 ^ 32) :
    rleExpand (quip_out_add_readlen rl l) = rleExpand rl ++ [l] := by
  unfold quip_out_add_readlen
  split
  · simp [rleExpand, Nat.mod_eq_of_lt hl]
    try omega
  · next h =>
    push_neg at h
    rw [rleExpand_add_last rl (0, 0) h.1 hb, h.2]

theorem pos_add_last {α : Type} (l : List (α × Nat)) (n : Nat)
    (h : ∀ p ∈ l, 0 < p.2) (hb : rleSum l + n < 2 ^ 32) :
    ∀ p ∈ rle_add_last l n, 0 < p.2 := by
  induction l with
  | nil => simp [rle_add_last]
  | cons p tl ih =>
    cases tl with
    | nil =>
      intro q hq
      rw [rleSum_cons] at hb
      simp [rle_add_last] at hq
      subst hq
      have := h p (by simp)
      simp only []
      rw [Nat.mod_eq_of_lt (by
        rw [show rleSum ([] : List (α × Nat)) = 0 from rfl] at hb; omega)]
      omega
    | cons r tl2 =>
      intro q hq
      rw [rleSum_cons] at hb
      rw [show rle_add_last (p :: r :: tl2) n = p :: rle_add_last (r :: tl2) n from rfl] at hq
      rcases List.mem_cons.1 hq with h1 | h1
      · exact h1 ▸ h p (by simp)
      · exact ih (fun x hx => h x (List.mem_cons_of_mem _ hx)) (by omega) q h1

theorem pos_add_readlen (rl : List (Nat × Nat)) (l : Nat)
    (h : ∀ p ∈ rl, 0 < p.2) (hb : rleSum rl + 1 < 2 ^ 32) :
    ∀ p ∈ quip_out_add_readlen rl l, 0 < p.2 := by
  unfold quip_out_add_readlen
  split
  · intro p hp
    rcases List.mem_append.1 hp with h1 | h1
    · exact h p h1
    · simp at h1; subst h1; simp
  · exact pos_add_last rl 1 h hb

theorem mem_fst_add_last {α : Type} (l : List (α × Nat)) (n : Nat) :
    ∀ p ∈ rle_add_last l n, ∃ q ∈ l, p.1 = q.1 := by
  induction l with
  | nil => simp [rle_add_last]
  | cons p tl ih =>
    cases tl with
    | nil =>
      intro q hq
      simp [rle_add_last] at hq
      subst hq
      exact ⟨p, by simp⟩
    | cons r tl2 =>
      intro q hq
      rw [show rle_add_last (p :: r :: tl2) n = p :: rle_add_last (r :: tl2) n from rfl] at hq
      rcases List.mem_cons.1 hq with h1 | h1
      · exact ⟨p, by simp, by rw [h1]⟩
      · obtain ⟨s, hs, he⟩ := ih q h1
        exact ⟨s, List.mem_cons_of_mem _ hs, he⟩

theorem vals_add_readlen (rl : List (Nat × Nat)) (l : Nat) (B : Nat)
    (h : ∀ p ∈ rl, p.1 < B) (hl : l < B) : ∀ p ∈ quip_out_add_readlen rl l, p.1 < B := by
  unfold quip_out_add_readlen
  split
  · intro p hp
    rcases List.mem_append.1 hp with h1 | h1
    · exact h p h1
    · simp at h1; subst h1
      exact lt_of_le_of_lt (Nat.mod_le l (2 ^ 32)) hl
  · intro p hp
    obtain ⟨q, hq, he⟩ := mem_fst_add_last rl 1 p hp
    exact he ▸ h q hq

/-- Facts about `rleEncode` in one statement, proved by a single fold
induction: for a list of fewer than `2 ^ 32` values each below `2 ^ 32`
(so no `uint32` store wraps), run counts are positive, they sum to the
list length, the expansion is the original list, and values come from the
list. -/
theorem rleEncode_spec (xs : List Nat) (hlen : xs.length < 2 ^ 32)
    (hxv : ∀ x ∈ xs, x < 2 ^ 32) :
    rleSum (rleEncode xs) = xs.length ∧
    rleExpand (rleEncode xs) = xs ∧
    (∀ p ∈ rleEncode xs, 0 < p.2) ∧
    (∀ p ∈ rleEncode xs, p.1 ∈ xs) := by
  have main : ∀ (xs : List Nat) (acc : List (Nat × Nat)),
      rleSum acc + xs.length < 2 ^ 32 → (∀ x ∈ xs, x < 2 ^ 32) →
      rleSum (xs.foldl quip_out_add_readlen acc) = rleSum acc + xs.length ∧
      rleExpand (xs.foldl quip_out_add_readlen acc) = rleExpand acc ++ xs ∧
      ((∀ p ∈ acc, 0 < p.2) → ∀ p ∈ xs.foldl quip_out_add_readlen acc, 0 < p.2) ∧
      (∀ p ∈ xs.foldl quip_out_add_readlen acc, p.1 ∈ xs ∨ ∃ q ∈ acc, p.1 = q.1) := by
    intro xs
    induction xs with
    | nil =>
      intro acc hb hv
      refine ⟨by simp, by simp, ?_, ?_⟩
      · intro h p hp
        rw [List.foldl_nil] at hp
        exact h p hp
      · intro p hp
        rw [List.foldl_nil] at hp
        exact Or.inr ⟨p, hp, rfl⟩
    | cons x tl ih =>
      intro acc hb hv
      rw [List.length_cons] at hb
      have hstep : rleSum (quip_out_add_readlen acc x) = rleSum acc + 1 :=
        rleSum_add_readlen acc x (by omega)
      obtain ⟨i1, i2, i3, i4⟩ := ih (quip_out_add_readlen acc x)
        (by rw [hstep]; omega) (fun y hy => hv y (List.mem_cons_of_mem x hy))
      refine ⟨?_, ?_, ?_, ?_⟩
      · simp only [List.foldl_cons, i1, hstep, List.length_cons]; omega
      · simp only [List.foldl_cons, i2,
          rleExpand_add_readlen acc x (hv x (List.mem_cons_self x tl)) (by omega),
          List.append_assoc, List.singleton_append]
      · intro h
        exact i3 (pos_add_readlen acc x h (by omega))
      · intro p hp
        rcases i4 p hp with h1 | ⟨q, hq, he⟩
        · exact Or.inl (List.mem_cons_of_mem _ h1)
        · unfold quip_out_add_readlen at hq
          split at hq
          · rcases List.mem_append.1 hq with h2 | h2
            · exact Or.inr ⟨q, h2, he⟩
            · simp at h2; subst h2
              rw [he]
              refine Or.inl ?_
              simp only []
              have hx := hv x (List.mem_cons_self x tl)
              rw [Nat.mod_eq_of_lt (show x < 4294967296 from by omega)]
              exact List.mem_cons_self x tl
          · obtain ⟨s, hs, he2⟩ := mem_fst_add_last acc 1 q hq
            exact Or.inr ⟨s, hs, he ▸ he2⟩
  obtain ⟨m1, m2, m3, m4⟩ := main xs [] (by simpa [rleSum]) hxv
  refine ⟨by simpa [rleEncode, rleSum] using m1, by simpa [rleEncode, rleExpand] using m2,
    m3 (by simp), fun p hp => ?_⟩
  rcases m4 p hp with h | ⟨q, hq, _⟩
  · exact h
  · simp at hq

end Quip
namespace Quip

/-! ### Modelled codec inverse lemmas -/

theorem qbind_ok {ε α β : Type} (a : α) (f : α → Except ε β) :
    (Except.ok a >>= f) = f a := rfl

theorem qbind_err {ε α β : Type} (e : ε) (f : α → Except ε β) :
    ((Except.error e : Except ε α) >>= f) = .error e := rfl

theorem charOfByte_mod (b : Nat) : charOfByte (b % 256) = charOfByte b := by
  simp [charOfByte, Nat.mod_mod_of_dvd _ dvd_rfl]

theorem idenc_decode_encode (s : List Nat) (r : List Nat) (h : s.length < 2 ^ 32) :
    idenc_decode_bytes (idenc_encode_bytes s ++ r) = .ok (s, r) := by
  unfold idenc_decode_bytes idenc_encode_bytes
  rw [List.append_assoc, read_uint32_write, qbind_ok, Nat.mod_eq_of_lt h]
  simp

theorem samoptenc_decode_encode (s : List Nat) (r : List Nat) (h : s.length < 2 ^ 32) :
    samoptenc_decode_bytes (samoptenc_encode_bytes s ++ r) = .ok (s, r) := by
  unfold samoptenc_decode_bytes samoptenc_encode_bytes
  rw [List.append_assoc, read_uint32_write, qbind_ok, Nat.mod_eq_of_lt h]
  simp

theorem disassembler_read_encode (s : List Nat) (r : List Nat) :
    disassembler_read_bytes s.length (assembler_encode_bytes s ++ r) = .ok (s, r) := by
  unfold disassembler_read_bytes assembler_encode_bytes
  simp

theorem qual_byte_roundtrip (c : Int) (x : Nat) (h : x < 256) :
    byteOfChar (c + charOfByte (byteOfChar (charOfByte x - c))) = x := by
  simp only [charOfByte, byteOfChar]
  split_ifs <;> omega

theorem qualenc_decode_encode (base : Int) (q : List Nat) (n : Nat) (r : List Nat)
    (hq : q = [] ∨ q.length = n) (hb : ∀ x ∈ q, x < 256) :
    qualenc_decode_bytes base n (qualenc_encode_bytes base q ++ r) = .ok (q, r) := by
  unfold qualenc_decode_bytes qualenc_encode_bytes
  rcases hq with hq | hq
  · subst hq
    simp [read_uint8, qbind_ok]
  · cases q with
    | nil =>
      simp [read_uint8, qbind_ok]
    | cons q0 qt =>
      subst hq
      rw [List.isEmpty_cons]
      simp only [if_false, Bool.false_eq_true, ite_false, List.cons_append, read_uint8, qbind_ok]
      rw [if_neg (by norm_num)]
      rw [if_neg (by simp only [List.length_append, List.length_map]; omega)]
      have hlen : (List.map (fun x => byteOfChar (charOfByte x - base)) (q0 :: qt)).length =
          (q0 :: qt).length := by simp
      rw [List.take_left' hlen, List.drop_left' hlen, List.map_map]
      have hmap : List.map ((fun o => byteOfChar (base + charOfByte o)) ∘
          fun x => byteOfChar (charOfByte x - base)) (q0 :: qt) = q0 :: qt := by
        refine (List.map_congr_left ?_).trans (List.map_id _)
        intro x hx
        exact qual_byte_roundtrip base x (hb x hx)
      rw [hmap]

end Quip
namespace Quip

/-! ### Block-header parse lemmas -/

theorem usplit32' (x : Nat) :
    x / 2 ^ 24 % 256 % 256 * 2 ^ 24 + x / 2 ^ 16 % 256 % 256 * 2 ^ 16 +
      x / 2 ^ 8 % 256 % 256 * 2 ^ 8 + x % 256 % 256 = x % 2 ^ 32 := by
  have h := usplit32 x
  have m : ∀ y : Nat, y % 256 % 256 = y % 256 := fun y => Nat.mod_mod_of_dvd y dvd_rfl
  simp only [m]
  exact h

theorem parse_readlen_rle_ser (N : Nat) :
    ∀ (rl : List (Nat × Nat)) (cnt : Nat) (rest : List Nat),
      cnt + rleSum rl = N → N < 2 ^ 32 →
      (∀ p ∈ rl, 0 < p.2) → (∀ p ∈ rl, p.1 < 2 ^ 32) →
      parse_readlen_rle N cnt
          ((rl.map (fun p => write_uint32 p.1 ++ write_uint32 p.2)).flatten ++ rest) =
        .ok (rl, rest)
  | [], cnt, rest, hsum, hN, _, _ => by
    rw [parse_readlen_rle.eq_def]
    rw [if_neg (by simp [rleSum] at hsum; omega)]
    simp
  | (v, c) :: tl, cnt, rest, hsum, hN, hpos, hv => by
    have hc : 0 < c := hpos (v, c) (by simp)
    have hvlt : v < 2 ^ 32 := hv (v, c) (by simp)
    have hsum' : cnt + c + rleSum tl = N := by
      rw [rleSum_cons] at hsum; omega
    have hlt : cnt < N := by
      have : 0 ≤ rleSum tl := Nat.zero_le _
      omega
    rw [parse_readlen_rle.eq_def]
    rw [if_pos hlt]
    simp only [List.map_cons, List.flatten_cons, List.append_assoc]
    have e1 : v / 2 ^ 24 % 256 % 256 * 2 ^ 24 + v / 2 ^ 16 % 256 % 256 * 2 ^ 16 +
        v / 2 ^ 8 % 256 % 256 * 2 ^ 8 + v % 256 % 256 = v := by
      rw [usplit32' v]; exact Nat.mod_eq_of_lt hvlt
    have e2 : c / 2 ^ 24 % 256 % 256 * 2 ^ 24 + c / 2 ^ 16 % 256 % 256 * 2 ^ 16 +
        c / 2 ^ 8 % 256 % 256 * 2 ^ 8 + c % 256 % 256 = c := by
      rw [usplit32' c]; exact Nat.mod_eq_of_lt (by omega)
    have e3 : (cnt + c) % 2 ^ 32 = cnt + c := Nat.mod_eq_of_lt (by omega)
    have ih := parse_readlen_rle_ser N tl (cnt + c) rest hsum' hN
      (fun p hp => hpos p (List.mem_cons_of_mem _ hp))
      (fun p hp => hv p (List.mem_cons_of_mem _ hp))
    set T := (List.map (fun p => write_uint32 p.1 ++ write_uint32 p.2) tl).flatten ++ rest with hT
    simp only [write_uint32, List.cons_append, List.nil_append]
    simp only [e1, e2, e3]
    rw [hT, ih]

theorem parse_scheme_rle_single (N b : Nat) (rest : List Nat) (h0 : 0 < N) (hN : N < 2 ^ 32) :
    parse_scheme_rle N 0 (write_uint8 b ++ (write_uint32 N ++ rest)) =
      .ok ([(charOfByte b, N)], rest) := by
  rw [parse_scheme_rle.eq_def]
  rw [if_pos h0]
  simp only [write_uint8, write_uint32, List.cons_append, List.nil_append, List.append_assoc]
  have e2 : N / 2 ^ 24 % 256 % 256 * 2 ^ 24 + N / 2 ^ 16 % 256 % 256 * 2 ^ 16 +
      N / 2 ^ 8 % 256 % 256 * 2 ^ 8 + N % 256 % 256 = N := by
    rw [usplit32' N]; exact Nat.mod_eq_of_lt hN
  have e3 : (0 + N) % 2 ^ 32 = N := by rw [Nat.zero_add]; exact Nat.mod_eq_of_lt hN
  have hend : parse_scheme_rle N N rest = .ok ([], rest) := by
    rw [parse_scheme_rle.eq_def]
    rw [if_neg (by omega)]
  simp only [e2, e3, hend, charOfByte_mod]

end Quip
namespace Quip

/-! ### Decode worker loop lemmas -/

theorem id_loop_ok :
    ∀ (ids : List (List Nat)) (extra : List Nat) (crc : Nat),
      (∀ i ∈ ids, i.length < 2 ^ 32) →
      id_decompressor_loop ids.length ((ids.map idenc_encode_bytes).flatten ++ extra) crc =
        .ok (ids, extra, ids.foldl (fun c i => crc64_update i c) crc)
  | [], extra, crc, _ => by simp [id_decompressor_loop]
  | i :: tl, extra, crc, h => by
    rw [show (i :: tl).length = tl.length + 1 from rfl]
    rw [id_decompressor_loop]
    simp only [List.map_cons, List.flatten_cons, List.append_assoc]
    rw [idenc_decode_encode i _ (h i (by simp)), qbind_ok]
    rw [id_loop_ok tl extra (crc64_update i crc) (fun x hx => h x (List.mem_cons_of_mem _ hx))]
    rfl

theorem aux_loop_ok :
    ∀ (auxs : List (List Nat)) (extra : List Nat) (crc : Nat),
      (∀ a ∈ auxs, a.length < 2 ^ 32) →
      aux_decompressor_loop auxs.length ((auxs.map samoptenc_encode_bytes).flatten ++ extra) crc =
        .ok (auxs, extra, auxs.foldl (fun c a => crc64_update a c) crc)
  | [], extra, crc, _ => by simp [aux_decompressor_loop]
  | a :: tl, extra, crc, h => by
    rw [show (a :: tl).length = tl.length + 1 from rfl]
    rw [aux_decompressor_loop]
    simp only [List.map_cons, List.flatten_cons, List.append_assoc]
    rw [samoptenc_decode_encode a _ (h a (by simp)), qbind_ok]
    rw [aux_loop_ok tl extra (crc64_update a crc) (fun x hx => h x (List.mem_cons_of_mem _ hx))]
    rfl

theorem readlen_next_shift (p : Nat × Nat) (rl : List (Nat × Nat)) (idx off : Nat) :
    readlen_next (p :: rl) (idx + 1) off =
      ((readlen_next rl idx off).1, (readlen_next rl idx off).2.1 + 1,
        (readlen_next rl idx off).2.2) := by
  unfold readlen_next
  simp only [List.getD_cons_succ]
  split <;> simp

theorem seq_loop_shift :
    ∀ (cnt : Nat) (p : Nat × Nat) (rl : List (Nat × Nat)) (idx off : Nat)
      (buf : List Nat) (crc : Nat),
      seq_decompressor_loop cnt (p :: rl) (idx + 1) off buf crc =
        seq_decompressor_loop cnt rl idx off buf crc
  | 0, _, _, _, _, _, _ => rfl
  | cnt + 1, p, rl, idx, off, buf, crc => by
    rw [seq_decompressor_loop, seq_decompressor_loop]
    rw [readlen_next_shift]
    rcases hnext : readlen_next rl idx off with ⟨n, idx2, off2⟩
    simp only
    cases disassembler_read_bytes n buf with
    | error e => rfl
    | ok v =>
      simp only [qbind_ok]
      rw [seq_loop_shift cnt p rl idx2 off2 v.2 (crc64_update v.1 crc)]

theorem seq_loop_run (v c : Nat) (tl : List (Nat × Nat)) :
    ∀ (hd ts : List short_read) (off : Nat) (buf2 : List Nat) (crc : Nat),
      hd ≠ [] → off + hd.length = c →
      (∀ r ∈ hd, r.seq.length = v) →
      seq_decompressor_loop (hd.length + ts.length) ((v, c) :: tl) 0 off
          ((hd.map (fun r => assembler_encode_bytes r.seq)).flatten ++ buf2) crc =
        (seq_decompressor_loop ts.length ((v, c) :: tl) 1 0 buf2
            (hd.foldl (fun cc r => crc64_update r.seq cc) crc)).map
          (fun t => (hd.map (fun r => r.seq) ++ t.1, t.2.1, t.2.2))
  | [], _, _, _, _, hne, _, _ => absurd rfl hne
  | [r], ts, off, buf2, crc, _, hoff, hlen => by
    have hv : r.seq.length = v := hlen r (by simp)
    rw [show ([r].length + ts.length) = ts.length + 1 from by simp; omega]
    rw [seq_decompressor_loop]
    have hnext : readlen_next ((v, c) :: tl) 0 off = (v, 1, 0) := by
      unfold readlen_next
      simp only [List.getD_cons_zero]
      rw [if_pos (by simp at hoff; omega)]
    rw [hnext]
    simp only [List.map_cons, List.map_nil, List.flatten_cons, List.flatten_nil,
      List.append_nil, List.append_assoc, List.nil_append]
    have hdec := disassembler_read_encode r.seq buf2
    rw [hv] at hdec
    rw [hdec, qbind_ok]
    simp only [List.foldl_cons, List.foldl_nil, List.map_cons, List.map_nil,
      List.singleton_append, List.cons_append, List.nil_append]
    cases seq_decompressor_loop ts.length ((v, c) :: tl) 1 0 buf2
        (crc64_update r.seq crc) with
    | error e => rfl
    | ok t => rfl
  | r :: r2 :: hd2, ts, off, buf2, crc, _, hoff, hlen => by
    have hv : r.seq.length = v := hlen r (by simp)
    rw [show ((r :: r2 :: hd2).length + ts.length) = ((r2 :: hd2).length + ts.length) + 1
      from by simp; omega]
    rw [seq_decompressor_loop]
    have hnext : readlen_next ((v, c) :: tl) 0 off = (v, 0, off + 1) := by
      unfold readlen_next
      simp only [List.getD_cons_zero]
      rw [if_neg (by simp at hoff; omega)]
    rw [hnext]
    simp only []
    rw [show (List.map (fun x => assembler_encode_bytes x.seq) (r :: r2 :: hd2)).flatten ++ buf2
        = assembler_encode_bytes r.seq ++
          ((List.map (fun x => assembler_encode_bytes x.seq) (r2 :: hd2)).flatten ++ buf2)
      from by simp]
    have hdec := disassembler_read_encode r.seq
        ((List.map (fun x => assembler_encode_bytes x.seq) (r2 :: hd2)).flatten ++ buf2)
    rw [hv] at hdec
    rw [hdec, qbind_ok]
    rw [seq_loop_run v c tl (r2 :: hd2) ts (off + 1) buf2 (crc64_update r.seq crc)
      (by simp) (by simp at hoff ⊢; omega)
      (fun x hx => hlen x (List.mem_cons_of_mem _ hx))]
    simp only [List.foldl_cons, List.foldl_nil, List.map_cons, List.map_nil,
      List.singleton_append, List.cons_append, List.nil_append]
    cases seq_decompressor_loop ts.length ((v, c) :: tl) 1 0 buf2
        (List.foldl (fun cc x => crc64_update x.seq cc)
          (crc64_update r2.seq (crc64_update r.seq crc)) hd2) with
    | error e => rfl
    | ok t => rfl

end Quip
namespace Quip

theorem seq_loop_expand :
    ∀ (rl : List (Nat × Nat)) (rs : List short_read) (buf2 : List Nat) (crc : Nat),
      (∀ p ∈ rl, 0 < p.2) →
      rs.map (fun r => r.seq.length) = rleExpand rl →
      seq_decompressor_loop rs.length rl 0 0
          ((rs.map (fun r => assembler_encode_bytes r.seq)).flatten ++ buf2) crc =
        .ok (rs.map (fun r => r.seq), buf2, rs.foldl (fun cc r => crc64_update r.seq cc) crc)
  | [], rs, buf2, crc, _, hexp => by
    rw [rleExpand_nil] at hexp
    have : rs = [] := by
      cases rs with
      | nil => rfl
      | cons a b => simp at hexp
    subst this
    simp [seq_decompressor_loop]
  | (v, c) :: tl, rs, buf2, crc, hpos, hexp => by
    have hc : 0 < c := hpos (v, c) (by simp)
    rw [rleExpand_cons] at hexp
    have hlenrs : rs.length = c + (rleExpand tl).length := by
      have := congrArg List.length hexp
      simpa using this
    have hsplit : rs = rs.take c ++ rs.drop c := (List.take_append_drop c rs).symm
    have htake_len : (rs.take c).length = c := by
      rw [List.length_take]
      omega
    have hmap_take : (rs.take c).map (fun r => r.seq.length) = List.replicate c v := by
      rw [List.map_take, hexp]
      exact List.take_left' (by simp)
    have hmap_drop : (rs.drop c).map (fun r => r.seq.length) = rleExpand tl := by
      rw [List.map_drop, hexp]
      exact List.drop_left' (by simp)
    have hvlen : ∀ r ∈ rs.take c, r.seq.length = v := by
      intro r hr
      have : r.seq.length ∈ List.replicate c v := by
        rw [← hmap_take]
        exact List.mem_map_of_mem _ hr
      exact List.eq_of_mem_replicate this
    have hne : rs.take c ≠ [] := by
      intro hcon
      rw [hcon] at htake_len
      simp at htake_len
      omega
    -- rewrite everything through the split
    conv_lhs => rw [hsplit]
    rw [List.length_append, List.map_append, List.flatten_append, List.append_assoc]
    rw [seq_loop_run v c tl (rs.take c) (rs.drop c) 0 _ crc hne (by omega) hvlen]
    rw [seq_loop_shift]
    rw [seq_loop_expand tl (rs.drop c) buf2 _
      (fun p hp => hpos p (List.mem_cons_of_mem _ hp)) hmap_drop]
    rw [show Except.map (fun t => ((rs.take c).map (fun r => r.seq) ++ t.1, t.2.1, t.2.2))
        (Except.ok ((rs.drop c).map (fun r => r.seq), buf2,
          (rs.drop c).foldl (fun cc r => crc64_update r.seq cc)
            ((rs.take c).foldl (fun cc r => crc64_update r.seq cc) crc)) :
          Except QuipErr (List (List Nat) × List Nat × Nat)) =
      .ok ((rs.take c).map (fun r => r.seq) ++ (rs.drop c).map (fun r => r.seq), buf2,
          (rs.drop c).foldl (fun cc r => crc64_update r.seq cc)
            ((rs.take c).foldl (fun cc r => crc64_update r.seq cc) crc)) from rfl]
    rw [← List.map_append, ← List.foldl_append, ← hsplit]

end Quip
namespace Quip

/-- On a single-run scheme list, the pre-increment cursor step never changes
the active base: the set-base guard `idx + 1 < count` can never hold. -/
theorem scheme_next_single (cb : Int) (N sidx soff : Nat) :
    scheme_next [(cb, N)] sidx soff cb = ((scheme_next [(cb, N)] sidx soff cb).1,
      (scheme_next [(cb, N)] sidx soff cb).2.1, cb) := by
  unfold scheme_next
  split
  · simp only [List.length_singleton]
    rw [if_neg (by omega)]
  · simp

theorem qual_loop_scheme_irrel :
    ∀ (cnt : Nat) (rl : List (Nat × Nat)) (ridx roff : Nat) (cb : Int) (N : Nat)
      (sidx soff sidx2 soff2 : Nat) (buf : List Nat) (crc : Nat),
      qual_decompressor_loop cnt rl ridx roff [(cb, N)] sidx soff cb buf crc =
        qual_decompressor_loop cnt rl ridx roff [(cb, N)] sidx2 soff2 cb buf crc
  | 0, _, _, _, _, _, _, _, _, _, _, _ => rfl
  | cnt + 1, rl, ridx, roff, cb, N, sidx, soff, sidx2, soff2, buf, crc => by
    rw [qual_decompressor_loop, qual_decompressor_loop]
    rcases hnext : readlen_next rl ridx roff with ⟨n, ridx2, roff2⟩
    simp only
    rw [scheme_next_single cb N sidx soff, scheme_next_single cb N sidx2 soff2]
    simp only
    cases qualenc_decode_bytes cb n buf with
    | error e => rfl
    | ok q =>
      simp only [qbind_ok]
      rw [qual_loop_scheme_irrel cnt rl ridx2 roff2 cb N
        (scheme_next [(cb, N)] sidx soff cb).1 (scheme_next [(cb, N)] sidx soff cb).2.1
        (scheme_next [(cb, N)] sidx2 soff2 cb).1 (scheme_next [(cb, N)] sidx2 soff2 cb).2.1
        q.2 (crc64_update q.1 crc)]

theorem qual_loop_shift :
    ∀ (cnt : Nat) (p : Nat × Nat) (rl : List (Nat × Nat)) (ridx roff : Nat)
      (cb : Int) (N sidx soff : Nat) (buf : List Nat) (crc : Nat),
      qual_decompressor_loop cnt (p :: rl) (ridx + 1) roff [(cb, N)] sidx soff cb buf crc =
        qual_decompressor_loop cnt rl ridx roff [(cb, N)] sidx soff cb buf crc
  | 0, _, _, _, _, _, _, _, _, _, _ => rfl
  | cnt + 1, p, rl, ridx, roff, cb, N, sidx, soff, buf, crc => by
    rw [qual_decompressor_loop, qual_decompressor_loop]
    rw [readlen_next_shift]
    rcases hnext : readlen_next rl ridx roff with ⟨n, ridx2, roff2⟩
    simp only
    rw [scheme_next_single cb N sidx soff]
    simp only
    cases qualenc_decode_bytes cb n buf with
    | error e => rfl
    | ok q =>
      simp only [qbind_ok]
      rw [qual_loop_shift cnt p rl ridx2 roff2 cb N
        (scheme_next [(cb, N)] sidx soff cb).1 (scheme_next [(cb, N)] sidx soff cb).2.1
        q.2 (crc64_update q.1 crc)]

end Quip
namespace Quip

theorem qual_loop_run (v c : Nat) (tl : List (Nat × Nat)) (cb : Int) (N : Nat) :
    ∀ (hd ts : List short_read) (off : Nat) (buf2 : List Nat) (crc : Nat),
      hd ≠ [] → off + hd.length = c →
      (∀ r ∈ hd, r.seq.length = v) →
      (∀ r ∈ hd, (r.qual = [] ∨ r.qual.length = r.seq.length) ∧ ∀ q ∈ r.qual, q < 256) →
      qual_decompressor_loop (hd.length + ts.length) ((v, c) :: tl) 0 off [(cb, N)] 0 0 cb
          ((hd.map (fun r => qualenc_encode_bytes cb r.qual)).flatten ++ buf2) crc =
        (qual_decompressor_loop ts.length ((v, c) :: tl) 1 0 [(cb, N)] 0 0 cb buf2
            (hd.foldl (fun cc r => crc64_update r.qual cc) crc)).map
          (fun t => (hd.map (fun r => r.qual) ++ t.1, t.2.1, t.2.2.1, t.2.2.2))
  | [], _, _, _, _, hne, _, _, _ => absurd rfl hne
  | [r], ts, off, buf2, crc, _, hoff, hlen, hq => by
    have hv : r.seq.length = v := hlen r (by simp)
    obtain ⟨hq1, hq2⟩ := hq r (by simp)
    rw [show ([r].length + ts.length) = ts.length + 1 from by simp; omega]
    rw [qual_decompressor_loop]
    have hnext : readlen_next ((v, c) :: tl) 0 off = (v, 1, 0) := by
      unfold readlen_next
      simp only [List.getD_cons_zero]
      rw [if_pos (by simp at hoff; omega)]
    rw [hnext]
    simp only []
    rw [scheme_next_single cb N 0 0]
    simp only []
    simp only [List.map_cons, List.map_nil, List.flatten_cons, List.flatten_nil,
      List.append_nil, List.append_assoc, List.nil_append]
    have hdec := qualenc_decode_encode cb r.qual v buf2
      (by rcases hq1 with h | h; exact Or.inl h; exact Or.inr (h.trans hv)) hq2
    rw [hdec, qbind_ok]
    rw [qual_loop_scheme_irrel ts.length ((v, c) :: tl) 1 0 cb N
      (scheme_next [(cb, N)] 0 0 cb).1 (scheme_next [(cb, N)] 0 0 cb).2.1 0 0 buf2
      (crc64_update r.qual crc)]
    simp only [List.foldl_cons, List.foldl_nil, List.singleton_append]
    cases qual_decompressor_loop ts.length ((v, c) :: tl) 1 0 [(cb, N)] 0 0 cb buf2
        (crc64_update r.qual crc) with
    | error e => rfl
    | ok t => rfl
  | r :: r2 :: hd2, ts, off, buf2, crc, _, hoff, hlen, hq => by
    have hv : r.seq.length = v := hlen r (by simp)
    obtain ⟨hq1, hq2⟩ := hq r (by simp)
    rw [show ((r :: r2 :: hd2).length + ts.length) = ((r2 :: hd2).length + ts.length) + 1
      from by simp; omega]
    rw [qual_decompressor_loop]
    have hnext : readlen_next ((v, c) :: tl) 0 off = (v, 0, off + 1) := by
      unfold readlen_next
      simp only [List.getD_cons_zero]
      rw [if_neg (by simp at hoff; omega)]
    rw [hnext]
    simp only []
    rw [scheme_next_single cb N 0 0]
    simp only []
    rw [show (List.map (fun x => qualenc_encode_bytes cb x.qual) (r :: r2 :: hd2)).flatten ++ buf2
        = qualenc_encode_bytes cb r.qual ++
          ((List.map (fun x => qualenc_encode_bytes cb x.qual) (r2 :: hd2)).flatten ++ buf2)
      from by simp]
    have hdec := qualenc_decode_encode cb r.qual v
      ((List.map (fun x => qualenc_encode_bytes cb x.qual) (r2 :: hd2)).flatten ++ buf2)
      (by rcases hq1 with h | h; exact Or.inl h; exact Or.inr (h.trans hv)) hq2
    rw [hdec, qbind_ok]
    rw [qual_loop_scheme_irrel ((r2 :: hd2).length + ts.length) ((v, c) :: tl) 0 (off + 1) cb N
      (scheme_next [(cb, N)] 0 0 cb).1 (scheme_next [(cb, N)] 0 0 cb).2.1 0 0 _
      (crc64_update r.qual crc)]
    rw [qual_loop_run v c tl cb N (r2 :: hd2) ts (off + 1) buf2 (crc64_update r.qual crc)
      (by simp) (by simp at hoff ⊢; omega)
      (fun x hx => hlen x (List.mem_cons_of_mem _ hx))
      (fun x hx => hq x (List.mem_cons_of_mem _ hx))]
    simp only [List.foldl_cons, List.foldl_nil, List.map_cons, List.map_nil,
      List.singleton_append, List.cons_append, List.nil_append]
    cases qual_decompressor_loop ts.length ((v, c) :: tl) 1 0 [(cb, N)] 0 0 cb buf2
        (List.foldl (fun cc x => crc64_update x.qual cc)
          (crc64_update r2.qual (crc64_update r.qual crc)) hd2) with
    | error e => rfl
    | ok t => rfl

end Quip
namespace Quip

theorem qual_loop_expand :
    ∀ (rl : List (Nat × Nat)) (rs : List short_read) (buf2 : List Nat) (crc : Nat)
      (cb : Int) (N : Nat),
      (∀ p ∈ rl, 0 < p.2) →
      rs.map (fun r => r.seq.length) = rleExpand rl →
      (∀ r ∈ rs, (r.qual = [] ∨ r.qual.length = r.seq.length) ∧ ∀ q ∈ r.qual, q < 256) →
      qual_decompressor_loop rs.length rl 0 0 [(cb, N)] 0 0 cb
          ((rs.map (fun r => qualenc_encode_bytes cb r.qual)).flatten ++ buf2) crc =
        .ok (rs.map (fun r => r.qual), buf2,
             rs.foldl (fun cc r => crc64_update r.qual cc) crc, cb)
  | [], rs, buf2, crc, cb, N, _, hexp, _ => by
    rw [rleExpand_nil] at hexp
    have : rs = [] := by
      cases rs with
      | nil => rfl
      | cons a b => simp at hexp
    subst this
    simp [qual_decompressor_loop]
  | (v, c) :: tl, rs, buf2, crc, cb, N, hpos, hexp, hq => by
    have hc : 0 < c := hpos (v, c) (by simp)
    rw [rleExpand_cons] at hexp
    have hlenrs : rs.length = c + (rleExpand tl).length := by
      have := congrArg List.length hexp
      simpa using this
    have hsplit : rs = rs.take c ++ rs.drop c := (List.take_append_drop c rs).symm
    have htake_len : (rs.take c).length = c := by
      rw [List.length_take]
      omega
    have hmap_take : (rs.take c).map (fun r => r.seq.length) = List.replicate c v := by
      rw [List.map_take, hexp]
      exact List.take_left' (by simp)
    have hmap_drop : (rs.drop c).map (fun r => r.seq.length) = rleExpand tl := by
      rw [List.map_drop, hexp]
      exact List.drop_left' (by simp)
    have hvlen : ∀ r ∈ rs.take c, r.seq.length = v := by
      intro r hr
      have : r.seq.length ∈ List.replicate c v := by
        rw [← hmap_take]
        exact List.mem_map_of_mem _ hr
      exact List.eq_of_mem_replicate this
    have hne : rs.take c ≠ [] := by
      intro hcon
      rw [hcon] at htake_len
      simp at htake_len
      omega
    conv_lhs => rw [hsplit]
    rw [List.length_append, List.map_append, List.flatten_append, List.append_assoc]
    rw [qual_loop_run v c tl cb N (rs.take c) (rs.drop c) 0 _ crc hne (by omega) hvlen
      (fun x hx => hq x (hsplit ▸ List.mem_append_left _ hx))]
    rw [qual_loop_shift]
    rw [qual_loop_expand tl (rs.drop c) buf2 _ cb N
      (fun p hp => hpos p (List.mem_cons_of_mem _ hp)) hmap_drop
      (fun x hx => hq x (hsplit ▸ List.mem_append_right _ hx))]
    rw [show Except.map (fun t => ((rs.take c).map (fun r => r.qual) ++ t.1,
          t.2.1, t.2.2.1, t.2.2.2))
        (Except.ok ((rs.drop c).map (fun r => r.qual), buf2,
          (rs.drop c).foldl (fun cc r => crc64_update r.qual cc)
            ((rs.take c).foldl (fun cc r => crc64_update r.qual cc) crc), cb) :
          Except QuipErr (List (List Nat) × List Nat × Nat × Int)) =
      .ok ((rs.take c).map (fun r => r.qual) ++ (rs.drop c).map (fun r => r.qual), buf2,
          (rs.drop c).foldl (fun cc r => crc64_update r.qual cc)
            ((rs.take c).foldl (fun cc r => crc64_update r.qual cc) crc), cb) from rfl]
    rw [← List.map_append, ← List.foldl_append, ← hsplit]

/-- Reassembling the four projection lists of a read list gives it back. -/
theorem assemble_chunk_proj :
    ∀ (rs : List short_read),
      assemble_chunk (rs.map (fun r => r.id)) (rs.map (fun r => r.seq))
        (rs.map (fun r => r.qual)) (rs.map (fun r => r.aux)) = rs
  | [] => rfl
  | r :: tl => by
    simp only [List.map_cons, assemble_chunk, assemble_chunk_proj tl]

end Quip
namespace Quip

/-! ### Decoder open and chunk-drain lemmas -/

theorem open_header (rest : List Nat) (ref : Option seqmap_t) :
    quip_quip_in_open (headerBytes ++ rest) ref = .ok (openedState rest) := by
  rw [show headerBytes ++ rest
      = 255 :: 81 :: 85 :: 73 :: 80 :: 0 :: 3 :: 0 :: 1 :: 0 :: 0 :: 0 :: 0 :: 0 :: 0 :: 0 :: 0 :: rest
    from by simp [headerBytes, quip_header_magic, quip_header_version, QUIP_FMT_NULL,
      write_uint8, write_uint64]]
  rw [quip_quip_in_open]
  simp [quip_header_magic, check_header_version, read_uint8, read_uint64, qbind_ok,
    openedState, QUIP_FMT_NULL]

theorem drain_chunk :
    ∀ (m : Nat) (D : quip_quip_in_t) (fuel : Nat),
      D.chunk_pos + m = D.chunk.length →
      quip_read_all (m + fuel) D =
        (quip_read_all fuel { D with chunk_pos := D.chunk.length }).map
          (fun p => (D.chunk.drop D.chunk_pos ++ p.1, p.2))
  | 0, D, fuel, h => by
    have h0 : D.chunk_pos = D.chunk.length := by omega
    rw [Nat.zero_add, h0, List.drop_length]
    have hD : ({ D with chunk_pos := D.chunk.length } : quip_quip_in_t) = D := by
      rw [← h0]
    rw [hD]
    cases quip_read_all fuel D with
    | error e => rfl
    | ok p => rfl
  | m + 1, D, fuel, h => by
    have hlt : D.chunk_pos < D.chunk.length := by omega
    rw [show m + 1 + fuel = (m + fuel) + 1 from by omega]
    rw [quip_read_all]
    rw [show quip_quip_read D = .ok (some (D.chunk.getD D.chunk_pos default),
        { D with chunk_pos := D.chunk_pos + 1 }) from by
      rw [quip_quip_read, if_pos hlt]]
    rw [qbind_ok]
    simp only []
    rw [drain_chunk m { D with chunk_pos := D.chunk_pos + 1 } fuel (by simp; omega)]
    simp only []
    have hdrop : D.chunk.drop D.chunk_pos
        = D.chunk.getD D.chunk_pos default :: D.chunk.drop (D.chunk_pos + 1) := by
      rw [List.getD, List.drop_eq_getElem_cons hlt]
      simp [List.getElem?_eq_getElem hlt]
    rw [hdrop]
    cases quip_read_all fuel { D with chunk_pos := D.chunk.length } with
    | error e => rfl
    | ok p => rfl

end Quip
namespace Quip

/-- Parsing the serialized header of a well-formed described block loads
exactly the described side information and payloads and consumes exactly
the block's bytes. -/
theorem read_block_header_gen (Dw : quip_quip_in_t) (b : BlockDesc) (rest2 : List Nat)
    (hin : Dw.input = genBlockBytes b ++ rest2) (hwf : wfBlock b) :
    quip_in_read_block_header Dw = .ok { Dw with
      input := rest2
      pending_reads := b.reads.length
      readlen_vals := rleEncode (b.reads.map (fun r => r.seq.length))
      readlen_idx := 0
      readlen_off := 0
      scheme_vals := [(charOfByte b.base, b.reads.length)]
      scheme_idx := 0
      scheme_off := 0
      qualenc_base := charOfByte b.base
      idbuf := genIdPayload b
      auxbuf := genAuxPayload b
      seqbuf := genSeqPayload b
      qualbuf := genQualPayload b
      exp_id_crc := b.crc_id
      exp_aux_crc := b.crc_aux
      exp_seq_crc := b.crc_seq
      exp_qual_crc := b.crc_qual
      id_crc := 0
      aux_crc := 0
      seq_crc := 0
      qual_crc := 0
      block_num := Dw.block_num + 1 } := by
  obtain ⟨hN1, hN2, hbase, hcid, hcaux, hcseq, hcqual, hlid, hlaux, hlseq, hlqual, hreads⟩ := hwf
  have hNlt : b.reads.length < 2 ^ 32 := by
    unfold chunk_size at hN2
    omega
  have hrle := rleEncode_spec (b.reads.map (fun r => r.seq.length))
    (by rw [List.length_map]; omega)
    (by
      intro x hx
      obtain ⟨r, hr, he⟩ := List.mem_map.1 hx
      have := (hreads r hr).2.2.1
      omega)
  rw [quip_in_read_block_header, hin, genBlockBytes]
  simp only [List.append_assoc]
  rw [read_uint32_write, qbind_ok]
  simp only []
  rw [Nat.mod_eq_of_lt hNlt]
  rw [if_neg (by omega)]
  rw [read_uint32_write, qbind_ok]
  simp only []
  rw [parse_readlen_rle_ser b.reads.length (rleEncode (b.reads.map (fun r => r.seq.length))) 0 _
    (by rw [Nat.zero_add, hrle.1, List.length_map]) hNlt hrle.2.2.1
    (by
      intro p hp
      have := hrle.2.2.2 p hp
      obtain ⟨r, hr, he⟩ := List.mem_map.1 this
      have := (hreads r hr).2.2.1
      omega)]
  rw [qbind_ok]
  simp only []
  rw [parse_scheme_rle_single b.reads.length b.base _ hN1 hNlt, qbind_ok]
  simp only []
  rw [read_uint32_write, qbind_ok]
  simp only []
  rw [read_uint32_write, qbind_ok]
  simp only []
  rw [read_uint64_write, qbind_ok]
  simp only []
  rw [read_uint32_write, qbind_ok]
  simp only []
  rw [read_uint32_write, qbind_ok]
  simp only []
  rw [read_uint64_write, qbind_ok]
  simp only []
  rw [read_uint32_write, qbind_ok]
  simp only []
  rw [read_uint32_write, qbind_ok]
  simp only []
  rw [read_uint64_write, qbind_ok]
  simp only []
  rw [read_uint32_write, qbind_ok]
  simp only []
  rw [read_uint32_write, qbind_ok]
  simp only []
  rw [read_uint64_write, qbind_ok]
  simp only []
  rw [Nat.mod_eq_of_lt hlid, Nat.mod_eq_of_lt hlaux, Nat.mod_eq_of_lt hlseq,
    Nat.mod_eq_of_lt hlqual, Nat.mod_eq_of_lt hcid, Nat.mod_eq_of_lt hcaux,
    Nat.mod_eq_of_lt hcseq, Nat.mod_eq_of_lt hcqual]
  rw [List.take_left' rfl]
  rw [if_neg (by omega)]
  rw [List.drop_left' rfl]
  rw [List.take_left' rfl]
  rw [if_neg (by omega)]
  rw [List.drop_left' rfl]
  rw [List.take_left' rfl]
  rw [if_neg (by omega)]
  rw [List.drop_left' rfl]
  rw [List.take_left' rfl]
  rw [if_neg (by omega)]
  rw [List.drop_left' rfl]
  rw [show skip_zero_runs [(charOfByte b.base, b.reads.length)] = 0 from rfl]
  rw [show ([(charOfByte b.base, b.reads.length)].getD 0 (33, 0)).1 = charOfByte b.base from rfl]

end Quip
namespace Quip

/-- Crossing a block boundary: one `quip_quip_read` call on a boundary
state whose input starts with a well-formed described block emits the
pending checksum warnings, parses the block header, decodes the whole
block as a single chunk and returns its first read. -/
theorem block_transition (D : quip_quip_in_t) (b : BlockDesc) (rest2 : List Nat)
    (hB : D.chunk_pos = D.chunk.length ∧ D.end_of_stream = false ∧ D.pending_reads = 0)
    (hin : D.input = genBlockBytes b ++ rest2) (hwf : wfBlock b) :
    quip_quip_read D = .ok (some (b.reads.getD 0 default), postChunkState D b rest2) := by
  obtain ⟨hpos, heos, hpend⟩ := hB
  obtain ⟨hN1, hN2, hbase, hcid, hcaux, hcseq, hcqual, hlid, hlaux, hlseq, hlqual, hreads⟩ := hwf
  have hNlt : b.reads.length < 2 ^ 32 := by
    unfold chunk_size at hN2
    omega
  have hrle := rleEncode_spec (b.reads.map (fun r => r.seq.length))
    (by rw [List.length_map]; omega)
    (by
      intro x hx
      obtain ⟨r, hr, he⟩ := List.mem_map.1 hx
      have := (hreads r hr).2.2.1
      omega)
  rw [quip_quip_read]
  rw [if_neg (by omega)]
  rw [heos]
  rw [if_neg (by simp)]
  rw [hpend, if_pos rfl]
  rw [read_block_header_gen
    { D with pending_reads := 0, end_of_stream := false,
             warnings := D.warnings ++ crc_warnings D } b rest2
    (by exact hin) ⟨hN1, hN2, hbase, hcid, hcaux, hcseq, hcqual, hlid, hlaux, hlseq, hlqual, hreads⟩]
  rw [qbind_ok]
  simp only []
  rw [if_neg (show ¬(b.reads.length = 0) from by omega)]
  have hcnt : (if b.reads.length ≥ chunk_size then chunk_size else b.reads.length)
      = b.reads.length := by
    unfold chunk_size at hN2 ⊢
    split <;> omega
  rw [hcnt]
  -- id worker
  have hid : id_decompressor_loop b.reads.length (genIdPayload b) 0 =
      .ok (b.reads.map (fun r => r.id), [],
        stream_crc (b.reads.map (fun r => r.id))) := by
    have := id_loop_ok (b.reads.map (fun r => r.id)) [] 0
      (by
        intro i hi
        obtain ⟨r, hr, he⟩ := List.mem_map.1 hi
        exact he ▸ (hreads r hr).1)
    rw [List.length_map, List.map_map, List.append_nil] at this
    rw [show genIdPayload b
        = (b.reads.map (idenc_encode_bytes ∘ fun r => r.id)).flatten from rfl]
    exact this
  rw [hid, qbind_ok]
  simp only []
  -- aux worker
  have haux : aux_decompressor_loop b.reads.length (genAuxPayload b) 0 =
      .ok (b.reads.map (fun r => r.aux), [],
        stream_crc (b.reads.map (fun r => r.aux))) := by
    have := aux_loop_ok (b.reads.map (fun r => r.aux)) [] 0
      (by
        intro a ha
        obtain ⟨r, hr, he⟩ := List.mem_map.1 ha
        exact he ▸ (hreads r hr).2.1)
    rw [List.length_map, List.map_map, List.append_nil] at this
    rw [show genAuxPayload b
        = (b.reads.map (samoptenc_encode_bytes ∘ fun r => r.aux)).flatten from rfl]
    exact this
  rw [haux, qbind_ok]
  simp only []
  -- seq worker
  have hseq : seq_decompressor_loop b.reads.length
      (rleEncode (b.reads.map (fun r => r.seq.length))) 0 0 (genSeqPayload b) 0 =
      .ok (b.reads.map (fun r => r.seq), [],
        stream_crc (b.reads.map (fun r => r.seq))) := by
    have := seq_loop_expand (rleEncode (b.reads.map (fun r => r.seq.length))) b.reads [] 0
      hrle.2.2.1 hrle.2.1.symm
    rw [List.append_nil] at this
    rw [show genSeqPayload b
        = (b.reads.map (fun r => assembler_encode_bytes r.seq)).flatten from rfl]
    rw [this]
    rw [show stream_crc (b.reads.map (fun r => r.seq))
        = b.reads.foldl (fun cc r => crc64_update r.seq cc) 0 from by
      unfold stream_crc
      rw [List.foldl_map]]
  rw [hseq, qbind_ok]
  simp only []
  -- qual worker
  have hqual : qual_decompressor_loop b.reads.length
      (rleEncode (b.reads.map (fun r => r.seq.length))) 0 0
      [(charOfByte b.base, b.reads.length)] 0 0 (charOfByte b.base) (genQualPayload b) 0 =
      .ok (b.reads.map (fun r => r.qual), [],
        stream_crc (b.reads.map (fun r => r.qual)), charOfByte b.base) := by
    have := qual_loop_expand (rleEncode (b.reads.map (fun r => r.seq.length))) b.reads [] 0
      (charOfByte b.base) b.reads.length hrle.2.2.1 hrle.2.1.symm
      (fun r hr => (hreads r hr).2.2.2)
    rw [List.append_nil] at this
    rw [show genQualPayload b
        = (b.reads.map (fun r => qualenc_encode_bytes (charOfByte b.base) r.qual)).flatten
      from rfl]
    rw [this]
    rw [show stream_crc (b.reads.map (fun r => r.qual))
        = b.reads.foldl (fun cc r => crc64_update r.qual cc) 0 from by
      unfold stream_crc
      rw [List.foldl_map]]
  rw [hqual, qbind_ok]
  simp only []
  rw [assemble_chunk_proj]
  rw [Nat.sub_self]
  simp only [postChunkState, heos]

end Quip
namespace Quip

theorem getD_cons_drop (rs : List short_read) (h : 0 < rs.length) :
    rs.getD 0 default :: rs.drop 1 = rs := by
  cases rs with
  | nil => simp at h
  | cons r tl => rfl

theorem map_prepend (Q : Except QuipErr (List short_read × List Warning))
    (r : short_read) (tl : List short_read) :
    (do let p ← Except.map (fun p => (tl ++ p.1, p.2)) Q
        Except.ok (r :: p.1, p.2) : Except QuipErr (List short_read × List Warning)) =
      Except.map (fun p => ((r :: tl) ++ p.1, p.2)) Q := by
  cases Q <;> rfl

theorem crc_warnings_postChunk (D : quip_quip_in_t) (b : BlockDesc) (rest2 : List Nat) :
    crc_warnings { postChunkState D b rest2 with
      chunk_pos := (postChunkState D b rest2).chunk.length } =
      warningsFor (D.block_num + 1) b := by
  rfl

/-- Consuming one whole described block: `reads-count` calls return the
block's reads in order, leaving a boundary state for the remaining input. -/
theorem block_step (D : quip_quip_in_t) (b : BlockDesc) (rest2 : List Nat) (fuel : Nat)
    (hpos : D.chunk_pos = D.chunk.length) (heos : D.end_of_stream = false)
    (hpend : D.pending_reads = 0)
    (hin : D.input = genBlockBytes b ++ rest2) (hwf : wfBlock b) :
    quip_read_all (b.reads.length + fuel) D =
      (quip_read_all fuel { postChunkState D b rest2 with
          chunk_pos := (postChunkState D b rest2).chunk.length }).map
        (fun p => (b.reads ++ p.1, p.2)) := by
  have hN1 : 0 < b.reads.length := hwf.1
  rw [show b.reads.length + fuel = ((b.reads.length - 1) + fuel) + 1 from by omega]
  rw [quip_read_all]
  rw [block_transition D b rest2 ⟨hpos, heos, hpend⟩ hin hwf, qbind_ok]
  simp only []
  rw [drain_chunk (b.reads.length - 1) (postChunkState D b rest2) fuel
    (by
      rw [show (postChunkState D b rest2).chunk_pos = 1 from rfl,
        show (postChunkState D b rest2).chunk = b.reads from rfl]
      omega)]
  rw [show (postChunkState D b rest2).chunk = b.reads from rfl,
    show (postChunkState D b rest2).chunk_pos = 1 from rfl]
  rw [map_prepend]
  simp only [getD_cons_drop b.reads hN1]

end Quip
namespace Quip

/-- Block-by-block correctness of the read loop: from a boundary state
whose remaining input is the described blocks followed by the terminator,
the loop returns all reads in order together with the accumulated
checksum warnings. -/
theorem decode_blocks (bs : List BlockDesc) :
    ∀ (D : quip_quip_in_t) (k : Nat),
      (∀ b ∈ bs, wfBlock b) →
      D.chunk_pos = D.chunk.length → D.end_of_stream = false → D.pending_reads = 0 →
      D.block_num = k →
      D.input = (bs.map genBlockBytes).flatten ++ write_uint32 0 →
      quip_read_all (fuelFor bs) D =
        .ok ((bs.map (fun b => b.reads)).flatten,
          D.warnings ++ crc_warnings D ++ warningsFrom k bs) := by
  induction bs with
  | nil =>
    intro D k hwf hpos heos hpend hk hin
    rw [show fuelFor ([] : List BlockDesc) = 1 from rfl]
    rw [quip_read_all]
    rw [quip_quip_read]
    rw [if_neg (show ¬ D.chunk_pos < D.chunk.length from by omega)]
    rw [heos, if_neg (by simp)]
    rw [hpend, if_pos rfl]
    rw [quip_in_read_block_header]
    rw [show ({ D with warnings := D.warnings ++ crc_warnings D } : quip_quip_in_t).input
        = write_uint32 0 ++ [] from by rw [hin]; simp]
    rw [read_uint32_write, qbind_ok]
    simp only []
    rw [if_pos (show (0 : Nat) % 2 ^ 32 = 0 from by norm_num), qbind_ok]
    simp only []
    rw [if_pos trivial, qbind_ok]
    simp [warningsFrom]
  | cons b tl ih =>
    intro D k hwf hpos heos hpend hk hin
    have hwfb : wfBlock b := hwf b (List.mem_cons_self b tl)
    have hin' : D.input = genBlockBytes b ++
        ((tl.map genBlockBytes).flatten ++ write_uint32 0) := by
      rw [hin]; simp [List.append_assoc]
    have hfuel : fuelFor (b :: tl) = b.reads.length + fuelFor tl := by
      simp [fuelFor]; omega
    rw [hfuel]
    rw [block_step D b ((tl.map genBlockBytes).flatten ++ write_uint32 0) (fuelFor tl)
      hpos heos hpend hin' hwfb]
    rw [ih { postChunkState D b ((tl.map genBlockBytes).flatten ++ write_uint32 0) with
          chunk_pos := (postChunkState D b
            ((tl.map genBlockBytes).flatten ++ write_uint32 0)).chunk.length }
        (k + 1) (fun b' hb' => hwf b' (List.mem_cons_of_mem b hb'))
        rfl heos rfl (by rw [show (postChunkState D b
            ((tl.map genBlockBytes).flatten ++ write_uint32 0)).block_num
          = D.block_num + 1 from rfl, hk]) rfl]
    rw [show ({ postChunkState D b ((tl.map genBlockBytes).flatten ++ write_uint32 0) with
        chunk_pos := (postChunkState D b
          ((tl.map genBlockBytes).flatten ++ write_uint32 0)).chunk.length }
        : quip_quip_in_t).warnings = D.warnings ++ crc_warnings D from rfl]
    rw [crc_warnings_postChunk D b ((tl.map genBlockBytes).flatten ++ write_uint32 0)]
    rw [hk]
    simp [warningsFrom, List.append_assoc, Except.map]

end Quip
namespace Quip

/-- Master decode run: opening and fully reading a described container
yields exactly the described reads and the expected checksum warnings. -/
theorem decode_container_ok (bs : List BlockDesc) (h : ∀ b ∈ bs, wfBlock b) :
    decodeContainer (fuelFor bs) (containerOf bs) none =
      .ok ((bs.map (fun b => b.reads)).flatten, warningsFrom 0 bs) := by
  rw [decodeContainer, containerOf, List.append_assoc, open_header, qbind_ok]
  rw [decode_blocks bs (openedState ((bs.map genBlockBytes).flatten ++ write_uint32 0)) 0
    h rfl rfl rfl rfl rfl]
  simp [openedState, crc_warnings]

end Quip
namespace Quip

/-! ### Encoder chunk-flush characterization -/

theorem id_thread_fold (l : List short_read) : ∀ (s : quip_quip_out_t),
    l.foldl
      (fun s r => { s with idenc_buf := s.idenc_buf ++ idenc_encode_bytes r.id,
                           id_crc := crc64_update r.id s.id_crc }) s =
      { s with idenc_buf := s.idenc_buf ++
                 (l.map (fun r => idenc_encode_bytes r.id)).flatten,
               id_crc := l.foldl (fun c r => crc64_update r.id c) s.id_crc } := by
  induction l with
  | nil => intro s; simp
  | cons r t ih =>
    intro s
    rw [List.foldl_cons, ih]
    simp [List.append_assoc]

theorem id_thread_eq (C : quip_quip_out_t) :
    id_compressor_thread C =
      { C with idenc_buf := C.idenc_buf ++
                 (C.chunk.map (fun r => idenc_encode_bytes r.id)).flatten,
               id_crc := C.chunk.foldl (fun c r => crc64_update r.id c) C.id_crc } := by
  rw [id_compressor_thread]; exact id_thread_fold C.chunk C

theorem aux_thread_fold (l : List short_read) : ∀ (s : quip_quip_out_t),
    l.foldl
      (fun s r => { s with auxenc_buf := s.auxenc_buf ++ samoptenc_encode_bytes r.aux,
                           aux_crc := crc64_update r.aux s.aux_crc }) s =
      { s with auxenc_buf := s.auxenc_buf ++
                 (l.map (fun r => samoptenc_encode_bytes r.aux)).flatten,
               aux_crc := l.foldl (fun c r => crc64_update r.aux c) s.aux_crc } := by
  induction l with
  | nil => intro s; simp
  | cons r t ih =>
    intro s
    rw [List.foldl_cons, ih]
    simp [List.append_assoc]

theorem aux_thread_eq (C : quip_quip_out_t) :
    aux_compressor_thread C =
      { C with auxenc_buf := C.auxenc_buf ++
                 (C.chunk.map (fun r => samoptenc_encode_bytes r.aux)).flatten,
               aux_crc := C.chunk.foldl (fun c r => crc64_update r.aux c) C.aux_crc } := by
  rw [aux_compressor_thread]; exact aux_thread_fold C.chunk C

theorem seq_thread_fold (l : List short_read) : ∀ (s : quip_quip_out_t),
    l.foldl
      (fun s r => { s with seqenc_buf := s.seqenc_buf ++ assembler_encode_bytes r.seq,
                           seq_crc := crc64_update r.seq s.seq_crc }) s =
      { s with seqenc_buf := s.seqenc_buf ++
                 (l.map (fun r => assembler_encode_bytes r.seq)).flatten,
               seq_crc := l.foldl (fun c r => crc64_update r.seq c) s.seq_crc } := by
  induction l with
  | nil => intro s; simp
  | cons r t ih =>
    intro s
    rw [List.foldl_cons, ih]
    simp [List.append_assoc]

theorem seq_thread_eq (C : quip_quip_out_t) :
    seq_compressor_thread C =
      { C with seqenc_buf := C.seqenc_buf ++
                 (C.chunk.map (fun r => assembler_encode_bytes r.seq)).flatten,
               seq_crc := C.chunk.foldl (fun c r => crc64_update r.seq c) C.seq_crc } := by
  rw [seq_compressor_thread]; exact seq_thread_fold C.chunk C

theorem qual_thread_fold (l : List short_read) : ∀ (s : quip_quip_out_t),
    l.foldl
      (fun s r => { s with qualenc_buf := s.qualenc_buf ++ qualenc_encode_bytes s.qualenc_base r.qual,
                           qual_crc := crc64_update r.qual s.qual_crc }) s =
      { s with qualenc_buf := s.qualenc_buf ++
                 (l.map (fun r => qualenc_encode_bytes s.qualenc_base r.qual)).flatten,
               qual_crc := l.foldl (fun c r => crc64_update r.qual c) s.qual_crc } := by
  induction l with
  | nil => intro s; simp
  | cons r t ih =>
    intro s
    rw [List.foldl_cons, ih]
    simp [List.append_assoc]

theorem qual_thread_eq (C : quip_quip_out_t) :
    qual_compressor_thread C =
      { C with qualenc_buf := C.qualenc_buf ++
                 (C.chunk.map (fun r => qualenc_encode_bytes C.qualenc_base r.qual)).flatten,
               qual_crc := C.chunk.foldl (fun c r => crc64_update r.qual c) C.qual_crc } := by
  rw [qual_compressor_thread]; exact qual_thread_fold C.chunk C

theorem bookkeeping_fold (l : List short_read) : ∀ (s : quip_quip_out_t),
    l.foldl
      (fun s r => { s with readlen := quip_out_add_readlen s.readlen r.seq.length,
                           id_bytes := s.id_bytes + r.id.length,
                           aux_bytes := s.aux_bytes + samopt_table_bytes r.aux,
                           qual_bytes := s.qual_bytes + r.qual.length,
                           seq_bytes := s.seq_bytes + r.seq.length,
                           buffered_bases := s.buffered_bases + r.seq.length,
                           total_bases := s.total_bases + r.seq.length }) s =
      { s with
        readlen := l.foldl (fun rl r => quip_out_add_readlen rl r.seq.length) s.readlen,
        id_bytes := s.id_bytes + (l.map (fun r => r.id.length)).sum,
        aux_bytes := s.aux_bytes + (l.map (fun r => samopt_table_bytes r.aux)).sum,
        qual_bytes := s.qual_bytes + (l.map (fun r => r.qual.length)).sum,
        seq_bytes := s.seq_bytes + sumSeqLens l,
        buffered_bases := s.buffered_bases + sumSeqLens l,
        total_bases := s.total_bases + sumSeqLens l } := by
  induction l with
  | nil => intro s; simp [sumSeqLens]
  | cons r t ih =>
    intro s
    rw [List.foldl_cons, ih]
    simp [sumSeqLens, Nat.add_assoc]

theorem chunk_bookkeeping_eq (C : quip_quip_out_t) :
    chunk_bookkeeping C =
      { C with
        readlen := C.chunk.foldl (fun rl r => quip_out_add_readlen rl r.seq.length) C.readlen,
        id_bytes := C.id_bytes + (C.chunk.map (fun r => r.id.length)).sum,
        aux_bytes := C.aux_bytes + (C.chunk.map (fun r => samopt_table_bytes r.aux)).sum,
        qual_bytes := C.qual_bytes + (C.chunk.map (fun r => r.qual.length)).sum,
        seq_bytes := C.seq_bytes + sumSeqLens C.chunk,
        buffered_bases := C.buffered_bases + sumSeqLens C.chunk,
        total_bases := C.total_bases + sumSeqLens C.chunk } := by
  rw [chunk_bookkeeping]; exact bookkeeping_fold C.chunk C

end Quip
namespace Quip

theorem rle_add_last_ne_nil {α : Type} (l : List (α × Nat)) (n : Nat) (h : l ≠ []) :
    rle_add_last l n ≠ [] := by
  cases l with
  | nil => simp at h
  | cons p tl =>
    cases tl with
    | nil => simp [rle_add_last]
    | cons q tl2 => simp [rle_add_last]

/-- `update_qual_scheme_guess`, when it succeeds, leaves everything but the
scheme and the codec base alone and keeps the scheme non-empty. -/
theorem update_guess_facts (C C1 : quip_quip_out_t) (hne : C.scheme ≠ [])
    (h : update_qual_scheme_guess C = .ok C1) :
    C1.chunk = C.chunk ∧ C1.out = C.out ∧ C1.blocks = C.blocks ∧
    C1.readlen = C.readlen ∧ C1.buffered_reads = C.buffered_reads ∧
    C1.buffered_bases = C.buffered_bases ∧ C1.finished = C.finished ∧
    C1.scheme ≠ [] := by
  unfold update_qual_scheme_guess at h
  dsimp only at h
  split at h
  · exact absurd h (by simp)
  · split at h
    · cases h
      exact ⟨rfl, rfl, rfl, rfl, rfl, rfl, rfl, by simp⟩
    · cases h
      exact ⟨rfl, rfl, rfl, rfl, rfl, rfl, rfl, rle_add_last_ne_nil _ _ hne⟩

/-- `quip_out_flush_chunk`, when it succeeds, clears the chunk into the
block counters: the flushed-read count grows by the chunk's read count,
the base count by the chunk's sequence bytes, and the emitted output and
block trace are untouched. -/
theorem flush_chunk_facts (C C' : quip_quip_out_t) (hne : C.scheme ≠ [])
    (h : quip_out_flush_chunk C = .ok C') :
    C'.chunk = [] ∧ C'.out = C.out ∧ C'.blocks = C.blocks ∧
    C'.buffered_reads = C.buffered_reads + C.chunk.length ∧
    C'.buffered_bases = C.buffered_bases + sumSeqLens C.chunk ∧
    C'.finished = C.finished ∧
    C'.scheme ≠ [] := by
  unfold quip_out_flush_chunk at h
  cases hu : update_qual_scheme_guess C with
  | error e => rw [hu] at h; exact absurd h (by simp [qbind_err])
  | ok C1 =>
    rw [hu, qbind_ok] at h
    simp only [] at h
    obtain ⟨hchunk, hout, hblocks, hrl, hbr, hbb, hfin, hsne⟩ :=
      update_guess_facts C C1 hne hu
    rw [id_thread_eq, aux_thread_eq, seq_thread_eq, qual_thread_eq, chunk_bookkeeping_eq] at h
    cases h
    simp only [hchunk, hout, hblocks, hrl, hbr, hbb, hfin]
    exact ⟨trivial, trivial, trivial, trivial, trivial, trivial, hsne⟩

end Quip
namespace Quip

/-! ### Encoder invariant preservation -/

theorem mem_dropLast_mem {α : Type} {l : List α} {x : α} (h : x ∈ l.dropLast) : x ∈ l := by
  induction l with
  | nil => simp at h
  | cons a t ih =>
    cases t with
    | nil => simp at h
    | cons b t2 =>
      rw [List.dropLast_cons₂, List.mem_cons] at h
      rcases h with h | h
      · simp [h]
      · exact List.mem_cons_of_mem a (ih h)

theorem flush_block_inv (C : quip_quip_out_t) (h : EncInv C)
    (hbb : block_size < C.buffered_bases) : EncInv (quip_out_flush_block C) := by
  obtain ⟨hfin, hout, hsne, hz, hblocks⟩ := h
  have hreads : 0 < C.buffered_reads := by
    rcases Nat.eq_zero_or_pos C.buffered_reads with h0 | hp
    · have := hz h0; omega
    · exact hp
  unfold quip_out_flush_block
  dsimp only
  refine ⟨hfin, ?_, by simp, fun _ => rfl, ?_⟩
  · rw [hout]; simp [List.append_assoc]
  · intro b' hb'
    rw [List.mem_append, List.mem_singleton] at hb'
    rcases hb' with hb' | rfl
    · exact hblocks b' hb'
    · exact ⟨hreads, hbb⟩

theorem flush_chunk_inv (C C1 : quip_quip_out_t) (h : EncInv C)
    (hf : quip_out_flush_chunk C = .ok C1) :
    EncInv C1 ∧ C1.chunk = [] ∧ C1.blocks = C.blocks ∧ C1.out = C.out ∧
      C1.buffered_reads = C.buffered_reads + C.chunk.length ∧
      C1.buffered_bases = C.buffered_bases + sumSeqLens C.chunk := by
  obtain ⟨hfin, hout, hsne, hz, hblocks⟩ := h
  obtain ⟨hchunk, hout1, hblocks1, hbr, hbb, hfin1, hsne1⟩ :=
    flush_chunk_facts C C1 hsne hf
  refine ⟨⟨by rw [hfin1, hfin], by rw [hout1, hblocks1, hout], hsne1, ?_,
    by rw [hblocks1]; exact hblocks⟩, hchunk, hblocks1, hout1, hbr, hbb⟩
  intro h0
  rw [hbr] at h0
  have hcr : C.buffered_reads = 0 := by omega
  have hcl : C.chunk.length = 0 := by omega
  rw [hbb, hz hcr, List.length_eq_zero.mp hcl]
  simp [sumSeqLens]

theorem write_inv (C C' : quip_quip_out_t) (r : short_read) (h : EncInv C)
    (hw : quip_quip_write C r = .ok C') : EncInv C' := by
  unfold quip_quip_write at hw
  have h0 : EncInv (if C.buffered_bases > block_size then quip_out_flush_block C else C) := by
    split
    · exact flush_block_inv C h (by assumption)
    · exact h
  set C0 := if C.buffered_bases > block_size then quip_out_flush_block C else C with hC0
  dsimp only at hw
  split at hw
  · cases hf : quip_out_flush_chunk C0 with
    | error e => rw [hf, qbind_err] at hw; exact absurd hw (by simp)
    | ok C1 =>
      rw [hf, qbind_ok] at hw
      cases hw
      exact (flush_chunk_inv C0 C1 h0 hf).1
  · rw [qbind_ok] at hw
    cases hw
    exact h0

theorem foldl_write_inv (l : List short_read) : ∀ (C C' : quip_quip_out_t), EncInv C →
    l.foldlM quip_quip_write C = .ok C' → EncInv C' := by
  induction l with
  | nil =>
    intro C C' h hw
    cases hw
    exact h
  | cons r t ih =>
    intro C C' h hw
    rw [List.foldlM_cons] at hw
    cases hq : quip_quip_write C r with
    | error e => rw [hq, qbind_err] at hw; exact absurd hw (by simp)
    | ok C1 =>
      rw [hq, qbind_ok] at hw
      exact ih C1 C' (write_inv C C1 r h hq) hw

theorem finish_tail (C1 : quip_quip_out_t) (h1 : EncInv C1) :
    EncodedOk { (if C1.buffered_bases > 0 then quip_out_flush_block C1 else C1) with
      out := (if C1.buffered_bases > 0 then quip_out_flush_block C1 else C1).out ++
        write_uint32 0,
      finished := true } := by
  obtain ⟨hfin, hout, hsne, hz, hblocks⟩ := h1
  split
  · have hreads : 0 < C1.buffered_reads := by
      rcases Nat.eq_zero_or_pos C1.buffered_reads with h0 | hp
      · have := hz h0; omega
      · exact hp
    unfold quip_out_flush_block
    dsimp only
    refine ⟨rfl, ?_, ?_, ?_⟩
    · rw [hout]; simp [List.append_assoc]
    · intro b' hb'
      rw [List.mem_append, List.mem_singleton] at hb'
      rcases hb' with hb' | rfl
      · exact (hblocks b' hb').1
      · exact hreads
    · intro b' hb'
      rw [List.dropLast_concat] at hb'
      exact (hblocks b' hb').2
  · refine ⟨rfl, ?_, ?_, ?_⟩
    · simp only [hout, List.append_assoc]
    · intro b' hb'
      exact (hblocks b' hb').1
    · intro b' hb'
      exact (hblocks b' (mem_dropLast_mem hb')).2

theorem finish_encoded (C C' : quip_quip_out_t) (h : EncInv C)
    (hf : quip_out_finish C = .ok C') : EncodedOk C' := by
  unfold quip_out_finish at hf
  rw [h.1, if_neg (by simp)] at hf
  split at hf
  · cases hfc : quip_out_flush_chunk C with
    | error e => rw [hfc, qbind_err] at hf; exact absurd hf (by simp)
    | ok C1 =>
      rw [hfc, qbind_ok] at hf
      cases hf
      exact finish_tail C1 (flush_chunk_inv C C1 h hfc).1
  · rw [qbind_ok] at hf
    cases hf
    exact finish_tail C h

/-- The invariant holds at `quip_quip_out_open 0` (the intended value of
the uninitialized first scheme run count). -/
theorem open_inv : EncInv (quip_quip_out_open 0) := by
  refine ⟨rfl, by simp [quip_quip_out_open, headerBytes], by simp [quip_quip_out_open],
    fun _ => rfl, by simp [quip_quip_out_open]⟩

/-- Master encoder theorem: a successful `encodeAll 0` run ends in a
finished, well-formed state. -/
theorem encodeAll_encoded (reads : List short_read) (C' : quip_quip_out_t)
    (h : encodeAll 0 reads = .ok C') : EncodedOk C' := by
  unfold encodeAll at h
  cases hf : reads.foldlM quip_quip_write (quip_quip_out_open 0) with
  | error e => rw [hf, qbind_err] at h; exact absurd h (by simp)
  | ok C1 =>
    rw [hf, qbind_ok] at h
    exact finish_encoded C1 C' (foldl_write_inv reads _ C1 open_inv hf) h

end Quip
namespace Quip

/-! ### Header-error classification -/

theorem bind_not_headerErr {α β : Type} (m : Except QuipErr α) (f : α → Except QuipErr β)
    (hm : ¬ isHeaderErr m) (hf : ∀ a, ¬ isHeaderErr (f a)) : ¬ isHeaderErr (m >>= f) := by
  cases m with
  | error e => rw [qbind_err]; cases e <;> exact hm
  | ok a => rw [qbind_ok]; exact hf a

theorem eof_not_headerErr {α : Type} : ¬ isHeaderErr (.error .eof : Except QuipErr α) := by
  simp [isHeaderErr]

theorem ok_not_headerErr {α : Type} (a : α) : ¬ isHeaderErr (.ok a : Except QuipErr α) := by
  simp [isHeaderErr]

theorem read_uint8_not_headerErr (s : List Nat) : ¬ isHeaderErr (read_uint8 s) := by
  cases s <;> simp [read_uint8, isHeaderErr]

theorem read_uint32_not_headerErr (s : List Nat) : ¬ isHeaderErr (read_uint32 s) := by
  rcases s with _ | ⟨b0, _ | ⟨b1, _ | ⟨b2, _ | ⟨b3, r⟩⟩⟩⟩ <;> simp [read_uint32, isHeaderErr]

theorem read_uint64_not_headerErr (s : List Nat) : ¬ isHeaderErr (read_uint64 s) := by
  rcases s with _ | ⟨b0, _ | ⟨b1, _ | ⟨b2, _ | ⟨b3, _ | ⟨b4, _ | ⟨b5, _ | ⟨b6, _ | ⟨b7, r⟩⟩⟩⟩⟩⟩⟩⟩ <;>
    simp [read_uint64, isHeaderErr]

theorem parse_readlen_rle_not_headerErr_aux : ∀ (n : Nat) (s : List Nat), s.length ≤ n →
    ∀ (pending cnt : Nat), ¬ isHeaderErr (parse_readlen_rle pending cnt s) := by
  intro n
  induction n with
  | zero =>
    intro s hs pending cnt
    rw [List.length_eq_zero.mp (Nat.le_zero.mp hs)]
    rw [parse_readlen_rle.eq_def]
    split
    · exact eof_not_headerErr
    · exact ok_not_headerErr _
  | succ n ih =>
    intro s hs pending cnt
    rcases s with _ | ⟨a0, _ | ⟨a1, _ | ⟨a2, _ | ⟨a3, _ | ⟨c0, _ | ⟨c1, _ | ⟨c2, _ | ⟨c3, rest⟩⟩⟩⟩⟩⟩⟩⟩ <;>
      rw [parse_readlen_rle.eq_def] <;> split
    case _ => exact eof_not_headerErr
    case _ => exact ok_not_headerErr _
    case _ => exact eof_not_headerErr
    case _ => exact ok_not_headerErr _
    case _ => exact eof_not_headerErr
    case _ => exact ok_not_headerErr _
    case _ => exact eof_not_headerErr
    case _ => exact ok_not_headerErr _
    case _ => exact eof_not_headerErr
    case _ => exact ok_not_headerErr _
    case _ => exact eof_not_headerErr
    case _ => exact ok_not_headerErr _
    case _ => exact eof_not_headerErr
    case _ => exact ok_not_headerErr _
    case _ => exact eof_not_headerErr
    case _ => exact ok_not_headerErr _
    case _ =>
      dsimp only
      have h := fun c => ih rest (by simp at hs; omega) pending c
      split
      · simp [isHeaderErr]
      · rename_i e heq
        have h2 := h ((cnt + (c0 % 256 * 2 ^ 24 + c1 % 256 * 2 ^ 16 + c2 % 256 * 2 ^ 8 +
          c3 % 256)) % 2 ^ 32)
        rw [heq] at h2
        simpa [isHeaderErr] using h2
    case _ => exact ok_not_headerErr _

theorem parse_readlen_rle_not_headerErr (pending cnt : Nat) (s : List Nat) :
    ¬ isHeaderErr (parse_readlen_rle pending cnt s) :=
  parse_readlen_rle_not_headerErr_aux s.length s le_rfl pending cnt

theorem parse_scheme_rle_not_headerErr_aux : ∀ (n : Nat) (s : List Nat), s.length ≤ n →
    ∀ (pending cnt : Nat), ¬ isHeaderErr (parse_scheme_rle pending cnt s) := by
  intro n
  induction n with
  | zero =>
    intro s hs pending cnt
    rw [List.length_eq_zero.mp (Nat.le_zero.mp hs)]
    rw [parse_scheme_rle.eq_def]
    split
    · exact eof_not_headerErr
    · exact ok_not_headerErr _
  | succ n ih =>
    intro s hs pending cnt
    rcases s with _ | ⟨b, _ | ⟨c0, _ | ⟨c1, _ | ⟨c2, _ | ⟨c3, rest⟩⟩⟩⟩⟩ <;>
      rw [parse_scheme_rle.eq_def] <;> split
    case _ => exact eof_not_headerErr
    case _ => exact ok_not_headerErr _
    case _ => exact eof_not_headerErr
    case _ => exact ok_not_headerErr _
    case _ => exact eof_not_headerErr
    case _ => exact ok_not_headerErr _
    case _ => exact eof_not_headerErr
    case _ => exact ok_not_headerErr _
    case _ => exact eof_not_headerErr
    case _ => exact ok_not_headerErr _
    case _ =>
      dsimp only
      have h := fun c => ih rest (by simp at hs; omega) pending c
      split
      · simp [isHeaderErr]
      · rename_i e heq
        have h2 := h ((cnt + (c0 % 256 * 2 ^ 24 + c1 % 256 * 2 ^ 16 + c2 % 256 * 2 ^ 8 +
          c3 % 256)) % 2 ^ 32)
        rw [heq] at h2
        simpa [isHeaderErr] using h2
    case _ => exact ok_not_headerErr _

theorem parse_scheme_rle_not_headerErr (pending cnt : Nat) (s : List Nat) :
    ¬ isHeaderErr (parse_scheme_rle pending cnt s) :=
  parse_scheme_rle_not_headerErr_aux s.length s le_rfl pending cnt

end Quip
namespace Quip

theorem seqmap_check_seqs_not_headerErr : ∀ (l : List (List Nat × List Nat)) (s : List Nat),
    ¬ isHeaderErr (seqmap_check_seqs l s) := by
  intro l
  induction l with
  | nil => intro s; exact ok_not_headerErr _
  | cons p rest ih =>
    intro s
    rw [seqmap_check_seqs]
    apply bind_not_headerErr _ _ (read_uint32_not_headerErr s)
    intro a
    obtain ⟨len, s1⟩ := a
    dsimp only
    split
    · simp [isHeaderErr]
    · split
      · simp [isHeaderErr]
      · apply bind_not_headerErr _ _ (read_uint64_not_headerErr _)
        intro b
        obtain ⟨l64, s2⟩ := b
        dsimp only
        split
        · simp [isHeaderErr]
        · exact ih _

theorem seqmap_check_info_not_headerErr (s : List Nat) (M : seqmap_t) :
    ¬ isHeaderErr (seqmap_check_quip_header_info s M) := by
  rw [seqmap_check_quip_header_info]
  apply bind_not_headerErr _ _ (read_uint64_not_headerErr s)
  intro a
  obtain ⟨h64, s1⟩ := a
  dsimp only
  split
  · simp [isHeaderErr]
  · apply bind_not_headerErr _ _ (read_uint32_not_headerErr _)
    intro b
    obtain ⟨fnlen, s2⟩ := b
    dsimp only
    apply bind_not_headerErr _ _ (read_uint32_not_headerErr _)
    intro c
    obtain ⟨n, s3⟩ := c
    dsimp only
    split
    · simp [isHeaderErr]
    · exact seqmap_check_seqs_not_headerErr _ _

theorem quip_list_ref_seqs_not_headerErr : ∀ (n : Nat) (s : List Nat),
    ¬ isHeaderErr (quip_list_ref_seqs n s) := by
  intro n
  induction n with
  | zero => intro s; exact ok_not_headerErr _
  | succ i ih =>
    intro s
    rw [quip_list_ref_seqs]
    apply bind_not_headerErr _ _ (read_uint32_not_headerErr s)
    intro a
    obtain ⟨len, s1⟩ := a
    dsimp only
    split
    · exact eof_not_headerErr
    · apply bind_not_headerErr _ _ (read_uint64_not_headerErr _)
      intro b
      obtain ⟨x, s2⟩ := b
      dsimp only
      exact ih _

theorem quip_list_blocks_not_headerErr : ∀ (fuel : Nat) (s : List Nat),
    ¬ isHeaderErr (quip_list_blocks fuel s) := by
  intro fuel
  induction fuel with
  | zero => intro s; simp [quip_list_blocks, isHeaderErr]
  | succ f ih =>
    intro s
    rw [quip_list_blocks]
    apply bind_not_headerErr _ _ (read_uint32_not_headerErr s)
    intro a
    obtain ⟨block_reads, s1⟩ := a
    dsimp only
    split
    · exact ok_not_headerErr _
    · apply bind_not_headerErr _ _ (read_uint32_not_headerErr _)
      intro a2; obtain ⟨x2, s2⟩ := a2; dsimp only
      apply bind_not_headerErr _ _ (parse_readlen_rle_not_headerErr _ _ _)
      intro a3; obtain ⟨x3, s3⟩ := a3; dsimp only
      apply bind_not_headerErr _ _ (parse_scheme_rle_not_headerErr _ _ _)
      intro a4; obtain ⟨x4, s4⟩ := a4; dsimp only
      apply bind_not_headerErr _ _ (read_uint32_not_headerErr _)
      intro a5; obtain ⟨x5, s5⟩ := a5; dsimp only
      apply bind_not_headerErr _ _ (read_uint32_not_headerErr _)
      intro a6; obtain ⟨n1, s6⟩ := a6; dsimp only
      apply bind_not_headerErr _ _ (read_uint64_not_headerErr _)
      intro a7; obtain ⟨x7, s7⟩ := a7; dsimp only
      apply bind_not_headerErr _ _ (read_uint32_not_headerErr _)
      intro a8; obtain ⟨x8, s8⟩ := a8; dsimp only
      apply bind_not_headerErr _ _ (read_uint32_not_headerErr _)
      intro a9; obtain ⟨n2, s9⟩ := a9; dsimp only
      apply bind_not_headerErr _ _ (read_uint64_not_headerErr _)
      intro a10; obtain ⟨x10, s10⟩ := a10; dsimp only
      apply bind_not_headerErr _ _ (read_uint32_not_headerErr _)
      intro a11; obtain ⟨x11, s11⟩ := a11; dsimp only
      apply bind_not_headerErr _ _ (read_uint32_not_headerErr _)
      intro a12; obtain ⟨n3, s12⟩ := a12; dsimp only
      apply bind_not_headerErr _ _ (read_uint64_not_headerErr _)
      intro a13; obtain ⟨x13, s13⟩ := a13; dsimp only
      apply bind_not_headerErr _ _ (read_uint32_not_headerErr _)
      intro a14; obtain ⟨x14, s14⟩ := a14; dsimp only
      apply bind_not_headerErr _ _ (read_uint32_not_headerErr _)
      intro a15; obtain ⟨n4, s15⟩ := a15; dsimp only
      apply bind_not_headerErr _ _ (read_uint64_not_headerErr _)
      intro a16; obtain ⟨x16, s16⟩ := a16; dsimp only
      exact ih _

end Quip
namespace Quip

theorem open_good_header_not_headerErr (b7 : Nat) (rest : List Nat) (ref : Option seqmap_t)
    (k : Nat → Nat → List Nat → quip_quip_in_t) :
    ¬ isHeaderErr
      ((if b7 % 2 = 1 then
          match ref with
          | none => .error .missingRef
          | some M => seqmap_check_quip_header_info rest M
        else .ok rest) >>= fun s =>
        (if b7 / 2 % 2 = 1 then do
          let (_, s) ← read_uint64 s
          .ok s
        else .ok s) >>= fun s => do
        let (aux_data_type, s) ← read_uint8 s
        let (aux_size, s) ← read_uint64 s
        (.ok (k aux_data_type aux_size s) : Except QuipErr quip_quip_in_t)) := by
  apply bind_not_headerErr
  · split
    · cases ref with
      | none => simp [isHeaderErr]
      | some M => exact seqmap_check_info_not_headerErr _ M
    · exact ok_not_headerErr _
  · intro s1
    apply bind_not_headerErr
    · split
      · apply bind_not_headerErr _ _ (read_uint64_not_headerErr _)
        intro a
        obtain ⟨x, s2⟩ := a
        dsimp only
        exact ok_not_headerErr _
      · exact ok_not_headerErr _
    · intro s2
      apply bind_not_headerErr _ _ (read_uint8_not_headerErr _)
      intro a
      obtain ⟨t, s3⟩ := a
      dsimp only
      apply bind_not_headerErr _ _ (read_uint64_not_headerErr _)
      intro b
      obtain ⟨nn, s4⟩ := b
      dsimp only
      exact ok_not_headerErr _

end Quip
namespace Quip

theorem list_good_header_not_headerErr (b7 fuel : Nat) (rest : List Nat) :
    ¬ isHeaderErr
      ((if b7 % 2 = 1 then do
          let (_, s) ← read_uint64 rest
          let (fnlen, s) ← read_uint32 s
          if s.length < fnlen then .error .eof else do
          let s := s.drop fnlen
          let (n, s) ← read_uint32 s
          quip_list_ref_seqs n s
        else .ok rest) >>= fun s =>
        (if b7 / 2 % 2 = 1 then do
          let (_, s) ← read_uint64 s
          .ok s
        else .ok s) >>= fun s => do
        let (_, s) ← read_uint8 s
        let (lead_bytes, s) ← read_uint64 s
        quip_list_blocks fuel (s.drop lead_bytes)) := by
  apply bind_not_headerErr
  · split
    · apply bind_not_headerErr _ _ (read_uint64_not_headerErr _)
      intro a
      obtain ⟨x, s1⟩ := a
      dsimp only
      apply bind_not_headerErr _ _ (read_uint32_not_headerErr _)
      intro b
      obtain ⟨fnlen, s2⟩ := b
      dsimp only
      split
      · exact eof_not_headerErr
      · apply bind_not_headerErr _ _ (read_uint32_not_headerErr _)
        intro c
        obtain ⟨n, s3⟩ := c
        dsimp only
        exact quip_list_ref_seqs_not_headerErr n s3
    · exact ok_not_headerErr _
  · intro s1
    apply bind_not_headerErr
    · split
      · apply bind_not_headerErr _ _ (read_uint64_not_headerErr _)
        intro a
        obtain ⟨x, s2⟩ := a
        dsimp only
        exact ok_not_headerErr _
      · exact ok_not_headerErr _
    · intro s2
      apply bind_not_headerErr _ _ (read_uint8_not_headerErr _)
      intro a
      obtain ⟨t, s3⟩ := a
      dsimp only
      apply bind_not_headerErr _ _ (read_uint64_not_headerErr _)
      intro b
      obtain ⟨lead, s4⟩ := b
      dsimp only
      exact quip_list_blocks_not_headerErr fuel _

end Quip
namespace Quip

set_option maxRecDepth 8000 in
theorem header_validation_iff (s : List Nat) (ref : Option seqmap_t) (fuel : Nat) :
    (isHeaderErr (quip_quip_in_open s ref) ↔ headerBad s) ∧
    (isHeaderErr (quip_list fuel s) ↔ headerBad s) := by
  rcases s with _ | ⟨b0, _ | ⟨b1, _ | ⟨b2, _ | ⟨b3, _ | ⟨b4, _ | ⟨b5, _ | ⟨b6, _ | ⟨b7, rest⟩⟩⟩⟩⟩⟩⟩⟩
  case nil => simp [quip_quip_in_open, quip_list, headerBad, isHeaderErr]
  case cons.nil => simp [quip_quip_in_open, quip_list, headerBad, isHeaderErr]
  case cons.cons.nil => simp [quip_quip_in_open, quip_list, headerBad, isHeaderErr]
  case cons.cons.cons.nil => simp [quip_quip_in_open, quip_list, headerBad, isHeaderErr]
  case cons.cons.cons.cons.nil =>
    simp [quip_quip_in_open, quip_list, headerBad, isHeaderErr]
  case cons.cons.cons.cons.cons.nil =>
    simp [quip_quip_in_open, quip_list, headerBad, isHeaderErr]
  case cons.cons.cons.cons.cons.cons.nil =>
    simp [quip_quip_in_open, quip_list, headerBad, isHeaderErr]
  case cons.cons.cons.cons.cons.cons.cons.nil =>
    simp [quip_quip_in_open, quip_list, headerBad, isHeaderErr]
  case cons.cons.cons.cons.cons.cons.cons.cons =>
    by_cases hm : [b0, b1, b2, b3, b4, b5] = quip_header_magic
    · by_cases hv : b6 = 2 ∨ b6 = 3
      · have hbad : ¬ headerBad (b0::b1::b2::b3::b4::b5::b6::b7::rest) := by
          simp [headerBad, hm, hv]
        have hopen : ¬ isHeaderErr (quip_quip_in_open
            (b0::b1::b2::b3::b4::b5::b6::b7::rest) ref) := by
          rw [quip_quip_in_open]
          rw [if_neg (by simp [hm])]
          simp only [List.take_succ_cons, List.take_zero, List.getD_cons_succ,
            List.getD_cons_zero, List.drop_succ_cons, List.drop_zero]
          rw [show check_header_version b6 = .ok () from by simp [check_header_version, hv],
            qbind_ok]
          split
          · cases ref with
            | none =>
              rw [qbind_err]
              simp [isHeaderErr]
            | some M =>
              apply bind_not_headerErr _ _ (seqmap_check_info_not_headerErr rest M)
              intro y
              split
              · apply bind_not_headerErr _ _ (read_uint64_not_headerErr _)
                intro a
                rw [qbind_ok]
                apply bind_not_headerErr _ _ (read_uint8_not_headerErr _)
                intro b
                apply bind_not_headerErr _ _ (read_uint64_not_headerErr _)
                intro c
                exact ok_not_headerErr _
              · apply bind_not_headerErr _ _ (read_uint8_not_headerErr _)
                intro b
                apply bind_not_headerErr _ _ (read_uint64_not_headerErr _)
                intro c
                exact ok_not_headerErr _
          · try rw [qbind_ok]
            split
            · apply bind_not_headerErr _ _ (read_uint64_not_headerErr _)
              intro a
              rw [qbind_ok]
              apply bind_not_headerErr _ _ (read_uint8_not_headerErr _)
              intro b
              apply bind_not_headerErr _ _ (read_uint64_not_headerErr _)
              intro c
              exact ok_not_headerErr _
            · apply bind_not_headerErr _ _ (read_uint8_not_headerErr _)
              intro b
              apply bind_not_headerErr _ _ (read_uint64_not_headerErr _)
              intro c
              exact ok_not_headerErr _
        have hlist : ¬ isHeaderErr (quip_list fuel
            (b0::b1::b2::b3::b4::b5::b6::b7::rest)) := by
          rw [quip_list]
          rw [if_neg (by simp [hm])]
          simp only [List.take_succ_cons, List.take_zero, List.getD_cons_succ,
            List.getD_cons_zero, List.drop_succ_cons, List.drop_zero]
          rw [show check_header_version b6 = .ok () from by simp [check_header_version, hv],
            qbind_ok]
          split
          · apply bind_not_headerErr _ _ (read_uint64_not_headerErr _)
            intro a
            apply bind_not_headerErr _ _ (read_uint32_not_headerErr _)
            intro b
            split
            · rw [qbind_err]
              simp [isHeaderErr]
            · apply bind_not_headerErr _ _ (read_uint32_not_headerErr _)
              intro c
              apply bind_not_headerErr _ _ (quip_list_ref_seqs_not_headerErr _ _)
              intro y
              split
              · apply bind_not_headerErr _ _ (read_uint64_not_headerErr _)
                intro d
                rw [qbind_ok]
                apply bind_not_headerErr _ _ (read_uint8_not_headerErr _)
                intro e
                apply bind_not_headerErr _ _ (read_uint64_not_headerErr _)
                intro f
                exact quip_list_blocks_not_headerErr fuel _
              · apply bind_not_headerErr _ _ (read_uint8_not_headerErr _)
                intro e
                apply bind_not_headerErr _ _ (read_uint64_not_headerErr _)
                intro f
                exact quip_list_blocks_not_headerErr fuel _
          · try rw [qbind_ok]
            split
            · apply bind_not_headerErr _ _ (read_uint64_not_headerErr _)
              intro d
              rw [qbind_ok]
              apply bind_not_headerErr _ _ (read_uint8_not_headerErr _)
              intro e
              apply bind_not_headerErr _ _ (read_uint64_not_headerErr _)
              intro f
              exact quip_list_blocks_not_headerErr fuel _
            · apply bind_not_headerErr _ _ (read_uint8_not_headerErr _)
              intro e
              apply bind_not_headerErr _ _ (read_uint64_not_headerErr _)
              intro f
              exact quip_list_blocks_not_headerErr fuel _
        exact ⟨iff_of_false hopen hbad, iff_of_false hlist hbad⟩
      · have hbad : headerBad (b0::b1::b2::b3::b4::b5::b6::b7::rest) := by
          simp [headerBad, hv]
        have hopen : isHeaderErr (quip_quip_in_open
            (b0::b1::b2::b3::b4::b5::b6::b7::rest) ref) := by
          rw [quip_quip_in_open]
          rw [if_neg (by simp [hm])]
          simp only [List.take_succ_cons, List.take_zero, List.getD_cons_succ,
            List.getD_cons_zero, List.drop_succ_cons, List.drop_zero]
          rw [show check_header_version b6 = .error .badVersion from by
              simp [check_header_version, hv],
            qbind_err]
          simp [isHeaderErr]
        have hlist : isHeaderErr (quip_list fuel
            (b0::b1::b2::b3::b4::b5::b6::b7::rest)) := by
          rw [quip_list]
          rw [if_neg (by simp [hm])]
          simp only [List.take_succ_cons, List.take_zero, List.getD_cons_succ,
            List.getD_cons_zero, List.drop_succ_cons, List.drop_zero]
          rw [show check_header_version b6 = .error .badVersion from by
              simp [check_header_version, hv],
            qbind_err]
          simp [isHeaderErr]
        exact ⟨iff_of_true hopen hbad, iff_of_true hlist hbad⟩
    · have hbad : headerBad (b0::b1::b2::b3::b4::b5::b6::b7::rest) := by
        simp [headerBad, hm]
      have hopen : isHeaderErr (quip_quip_in_open
          (b0::b1::b2::b3::b4::b5::b6::b7::rest) ref) := by
        rw [quip_quip_in_open]
        rw [if_pos (by simp [hm])]
        simp [isHeaderErr]
      have hlist : isHeaderErr (quip_list fuel
          (b0::b1::b2::b3::b4::b5::b6::b7::rest)) := by
        rw [quip_list]
        rw [if_pos (by simp [hm])]
        simp [isHeaderErr]
      exact ⟨iff_of_true hopen hbad, iff_of_true hlist hbad⟩

end Quip
namespace Quip

theorem reads_of_core : ∀ (bs bs' : List BlockDesc), bs.map coreOf = bs'.map coreOf →
    bs.map (fun b => b.reads) = bs'.map (fun b => b.reads) := by
  intro bs
  induction bs with
  | nil =>
    intro bs' h
    cases bs' with
    | nil => rfl
    | cons b' tl' => simp at h
  | cons b tl ih =>
    intro bs' h
    cases bs' with
    | nil => simp at h
    | cons b' tl' =>
      simp only [List.map_cons, List.cons.injEq] at h
      obtain ⟨h1, h2⟩ := h
      simp only [coreOf, Prod.mk.injEq] at h1
      simp only [List.map_cons, List.cons.injEq]
      exact ⟨h1.1, ih tl' h2⟩

theorem warnings_of_core : ∀ (bs bs' : List BlockDesc), bs.map coreOf = bs'.map coreOf →
    ∀ (k : Nat), warningsFrom k bs = warningsFrom k bs' := by
  intro bs
  induction bs with
  | nil =>
    intro bs' h k
    cases bs' with
    | nil => rfl
    | cons b' tl' => simp at h
  | cons b tl ih =>
    intro bs' h k
    cases bs' with
    | nil => simp at h
    | cons b' tl' =>
      simp only [List.map_cons, List.cons.injEq] at h
      obtain ⟨h1, h2⟩ := h
      simp only [coreOf, Prod.mk.injEq] at h1
      obtain ⟨hr, hcid, hcaux, hcseq, hcqual⟩ := h1
      rw [warningsFrom, warningsFrom, ih tl' h2 (k + 1)]
      unfold warningsFor
      rw [hr, hcid, hcaux, hcseq, hcqual]

theorem fuelFor_of_core (bs bs' : List BlockDesc) (h : bs.map coreOf = bs'.map coreOf) :
    fuelFor bs = fuelFor bs' := by
  have hr := reads_of_core bs bs' h
  unfold fuelFor
  rw [show bs.map (fun b => b.reads.length) = (bs.map (fun b => b.reads)).map List.length
      from by rw [List.map_map]; rfl,
    show bs'.map (fun b => b.reads.length) = (bs'.map (fun b => b.reads)).map List.length
      from by rw [List.map_map]; rfl,
    hr]

end Quip
namespace Quip

set_option maxHeartbeats 1600000 in
theorem encode_single_seq_bases (n : Nat) (hn : 0 < n) :
    (encodeAll 0 [⟨[], List.replicate n 65, [], []⟩]).map
        (fun st => st.blocks.map (fun b => b.bases_in_block)) = .ok [n] := by
  simp [encodeAll, quip_quip_write, quip_quip_out_open, quip_out_finish, quip_out_flush_chunk,
    update_qual_scheme_guess, chunk_min_qual, chunk_max_qual, id_compressor_thread,
    aux_compressor_thread, seq_compressor_thread, qual_compressor_thread, chunk_bookkeeping,
    quip_out_flush_block, block_size, chunk_size, qual_scale_size, rle_add_last, sumSeqLens,
    hn, charOfByte, Except.map, qbind_ok]

end Quip
namespace Quip

/-! ### Claim theorems -/

/-- C9: the container-level aux payload is read with a single call for the
declared length; a truncated payload raises no error, the stored payload is
whatever arrived, and the recorded length is the declared `n`, regardless
of how many bytes were actually delivered. -/
theorem C9_truncated_aux_undetected (tag n : Nat) (r : List Nat)
    (hn : n < 2 ^ 64) (hr : r.length ≤ n) :
    quip_quip_in_open
        (quip_header_magic ++ [quip_header_version] ++ [0] ++ write_uint8 tag ++
          write_uint64 n ++ r) none =
      .ok { (openedState []) with aux_data := r, aux_data_n := n, aux_data_type := tag % 256 } := by
  rw [show quip_header_magic ++ [quip_header_version] ++ [0] ++ write_uint8 tag ++
        write_uint64 n ++ r
      = 255 :: 81 :: 85 :: 73 :: 80 :: 0 :: 3 :: 0 :: (write_uint8 tag ++ (write_uint64 n ++ r))
    from by simp [quip_header_magic, quip_header_version, write_uint8]]
  rw [quip_quip_in_open]
  rw [if_neg (by simp [quip_header_magic])]
  simp only [List.take_succ_cons, List.take_zero, List.getD_cons_succ, List.getD_cons_zero,
    List.drop_succ_cons, List.drop_zero]
  rw [show check_header_version 3 = .ok () from rfl, qbind_ok]
  rw [if_neg (by decide), qbind_ok]
  rw [if_neg (by decide), qbind_ok]
  rw [read_uint8_write, qbind_ok]
  rw [read_uint64_write, qbind_ok]
  rw [Nat.mod_eq_of_lt hn]
  rw [List.take_of_length_le hr, List.drop_eq_nil_of_le hr]
  rfl

end Quip
namespace Quip

/-- C9 witness: a payload declared as 3 bytes of which only 2 arrive. -/
theorem C9_truncated_aux_undetected_witness :
    (3 : Nat) < 2 ^ 64 ∧ ([7, 8] : List Nat).length ≤ 3 ∧
    quip_quip_in_open
        (quip_header_magic ++ [quip_header_version] ++ [0] ++ write_uint8 5 ++
          write_uint64 3 ++ [7, 8]) none =
      .ok { (openedState []) with aux_data := [7, 8], aux_data_n := 3, aux_data_type := 5 % 256 } :=
  ⟨by decide, by decide, C9_truncated_aux_undetected 5 3 [7, 8] (by decide) (by decide)⟩

/-- C6: decoding a well-formed container returns every block's reads in
order and exactly the per-sub-stream checksum warnings `warningsFrom`
computes — one warning per sub-stream whose stored checksum differs from
the checksum of the decoded bytes, naming the sub-stream and block; the
mismatching block's data is still returned and decoding continues. -/
theorem C6_checksum_mismatch_policy (bs : List BlockDesc) (h : ∀ b ∈ bs, wfBlock b) :
    decodeContainer (fuelFor bs) (containerOf bs) none =
      .ok ((bs.map (fun b => b.reads)).flatten, warningsFrom 0 bs) :=
  decode_container_ok bs h

/-- C6 witness: one single-read block whose four stored checksums are
arbitrary fixed values. -/
theorem C6_checksum_mismatch_policy_witness :
    (∀ b ∈ [(⟨[⟨[105], [65], [33], []⟩], 33, 1, 1, 1, 1, 1, 11, 22, 33, 44⟩ : BlockDesc)],
      wfBlock b) ∧
    decodeContainer
        (fuelFor [(⟨[⟨[105], [65], [33], []⟩], 33, 1, 1, 1, 1, 1, 11, 22, 33, 44⟩ : BlockDesc)])
        (containerOf [(⟨[⟨[105], [65], [33], []⟩], 33, 1, 1, 1, 1, 1, 11, 22, 33, 44⟩ : BlockDesc)])
        none =
      .ok (([(⟨[⟨[105], [65], [33], []⟩], 33, 1, 1, 1, 1, 1, 11, 22, 33, 44⟩ : BlockDesc)].map
          (fun b => b.reads)).flatten,
        warningsFrom 0
          [(⟨[⟨[105], [65], [33], []⟩], 33, 1, 1, 1, 1, 1, 11, 22, 33, 44⟩ : BlockDesc)]) :=
  ⟨by decide, C6_checksum_mismatch_policy
    [(⟨[⟨[105], [65], [33], []⟩], 33, 1, 1, 1, 1, 1, 11, 22, 33, 44⟩ : BlockDesc)] (by decide)⟩

/-- C10: the decoded result depends only on each block's reads and stored
checksums: two well-formed containers whose blocks agree on those (but may
differ in `bases_in_block` and the four `uncompressed_size` fields) decode
identically. -/
theorem C10_usize_independent (bs bs' : List BlockDesc)
    (hcore : bs.map coreOf = bs'.map coreOf)
    (h1 : ∀ b ∈ bs, wfBlock b) (h2 : ∀ b ∈ bs', wfBlock b) :
    decodeContainer (fuelFor bs) (containerOf bs) none =
      decodeContainer (fuelFor bs') (containerOf bs') none := by
  rw [decode_container_ok bs h1, decode_container_ok bs' h2,
    reads_of_core bs bs' hcore, warnings_of_core bs bs' hcore 0]

/-- C10 witness: two single-block containers differing only in
`bases_in_block` and the four `uncompressed_size` fields. -/
theorem C10_usize_independent_witness :
    ([(⟨[⟨[105], [65], [33], []⟩], 33, 1, 1, 1, 1, 1, 11, 22, 33, 44⟩ : BlockDesc)].map coreOf =
      [(⟨[⟨[105], [65], [33], []⟩], 33, 99, 90, 91, 92, 93, 11, 22, 33, 44⟩ : BlockDesc)].map
        coreOf) ∧
    decodeContainer
        (fuelFor [(⟨[⟨[105], [65], [33], []⟩], 33, 1, 1, 1, 1, 1, 11, 22, 33, 44⟩ : BlockDesc)])
        (containerOf [(⟨[⟨[105], [65], [33], []⟩], 33, 1, 1, 1, 1, 1, 11, 22, 33, 44⟩ : BlockDesc)])
        none =
      decodeContainer
        (fuelFor
          [(⟨[⟨[105], [65], [33], []⟩], 33, 99, 90, 91, 92, 93, 11, 22, 33, 44⟩ : BlockDesc)])
        (containerOf
          [(⟨[⟨[105], [65], [33], []⟩], 33, 99, 90, 91, 92, 93, 11, 22, 33, 44⟩ : BlockDesc)])
        none :=
  ⟨by decide, C10_usize_independent
    [(⟨[⟨[105], [65], [33], []⟩], 33, 1, 1, 1, 1, 1, 11, 22, 33, 44⟩ : BlockDesc)]
    [(⟨[⟨[105], [65], [33], []⟩], 33, 99, 90, 91, 92, 93, 11, 22, 33, 44⟩ : BlockDesc)]
    (by decide) (by decide) (by decide)⟩

/-- C7: a decode-side entry point (`quip_quip_in_open` or `quip_list`)
reports a malformed header (`notQuip` / `badVersion`) exactly when the
input has fewer than eight bytes, a wrong magic, or a version byte other
than 2 or 3; a good header does not guarantee acceptance, since the rest
of the prologue can still fail with other errors. -/
theorem C7_header_validation (s : List Nat) (ref : Option seqmap_t) (fuel : Nat) :
    (isHeaderErr (quip_quip_in_open s ref) ↔ headerBad s) ∧
    (isHeaderErr (quip_list fuel s) ↔ headerBad s) :=
  header_validation_iff s ref fuel

/-- C7 counterexample: the eight header bytes alone carry the correct magic
and version 3, yet opening fails fatally with `eof`, refuting the claim
that correct magic and version imply acceptance. -/
theorem C7_valid_header_still_fails :
    quip_quip_in_open [255, 81, 85, 73, 80, 0, 3, 0] none = .error .eof ∧
    ¬ headerBad [255, 81, 85, 73, 80, 0, 3, 0] := by
  exact ⟨by decide, by decide⟩

end Quip
namespace Quip

set_option maxHeartbeats 1600000 in
/-- C5 counterexample: the first quality-scheme run count is read from the
uninitialized `qual_scheme_lens[0]` cell (allocated but never written
before the first block); whenever that cell holds a nonzero value — here 7,
exposed as `encodeAll`'s first parameter — the first emitted block's
quality-scheme run counts sum to reads-plus-garbage, violating the claimed
invariant. -/
theorem C5_uninitialized_scheme_len :
    (encodeAll 7 [⟨[105], [65], [33], []⟩]).map
        (fun st => st.blocks.map (fun b => (rleSum b.scheme, b.reads_in_block))) =
      .ok [(8, 1)] ∧ (8 : Nat) ≠ 1 :=
  ⟨by decide, by decide⟩

/-- C2: the encoder flushes a block only at the first write after the
buffered base count strictly exceeds `block_size`, so every emitted block
except possibly the final one holds more than `block_size` bases. -/
theorem C2_nonfinal_blocks_exceed_block_size (reads : List short_read)
    (C' : quip_quip_out_t) (h : encodeAll 0 reads = .ok C') :
    ∀ b ∈ C'.blocks.dropLast, block_size < b.bases_in_block :=
  (encodeAll_encoded reads C' h).2.2.2

/-- C2 witness: the empty run. -/
theorem C2_nonfinal_blocks_exceed_block_size_witness :
    ∃ C', encodeAll 0 [] = .ok C' ∧
      ∀ b ∈ C'.blocks.dropLast, block_size < b.bases_in_block :=
  ⟨_, rfl, C2_nonfinal_blocks_exceed_block_size [] _ rfl⟩

/-- C2 counterexample: a single read of `block_size + 1` bases is emitted
as one block holding more than `block_size` bases, refuting the claim that
no emitted block exceeds `BLOCK_BASES`. -/
theorem C2_block_exceeds_block_size :
    (encodeAll 0 [⟨[], List.replicate (block_size + 1) 65, [], []⟩]).map
        (fun st => st.blocks.map (fun b => b.bases_in_block)) = .ok [block_size + 1] ∧
    block_size < block_size + 1 :=
  ⟨encode_single_seq_bases (block_size + 1) (by omega), by omega⟩

/-- C8: a finished encode run's output is the header, the serialized
blocks — each opening with a nonzero `u32` read count — and a single
trailing terminator `u32 = 0`; finishing or closing again changes nothing;
the empty run yields exactly header plus terminator, which decodes to no
reads and no warnings. -/
theorem C8_terminator_once (reads : List short_read) (C' : quip_quip_out_t)
    (h : encodeAll 0 reads = .ok C') :
    C'.out = headerBytes ++ (C'.blocks.map blockBytes).flatten ++ write_uint32 0 ∧
    (∀ b ∈ C'.blocks, 0 < b.reads_in_block) ∧
    quip_out_finish C' = .ok C' ∧
    quip_quip_out_close C' = .ok C' ∧
    encodeAll 0 [] = .ok { (quip_quip_out_open 0) with
      out := headerBytes ++ write_uint32 0, finished := true } ∧
    decodeContainer 1 (headerBytes ++ write_uint32 0) none = .ok ([], []) := by
  have he := encodeAll_encoded reads C' h
  refine ⟨he.2.1, he.2.2.1, ?_, ?_, by decide, ?_⟩
  · unfold quip_out_finish
    rw [he.1, if_pos rfl]
  · unfold quip_quip_out_close
    rw [he.1]
    rw [if_neg (by decide)]
  · have hd := decode_container_ok [] (by simp)
    simpa [containerOf, fuelFor, warningsFrom] using hd

/-- C8 witness: the empty run. -/
theorem C8_terminator_once_witness :
    ∃ C', encodeAll 0 [] = .ok C' ∧
      (C'.out = headerBytes ++ (C'.blocks.map blockBytes).flatten ++ write_uint32 0 ∧
      (∀ b ∈ C'.blocks, 0 < b.reads_in_block) ∧
      quip_out_finish C' = .ok C' ∧
      quip_quip_out_close C' = .ok C' ∧
      encodeAll 0 [] = .ok { (quip_quip_out_open 0) with
        out := headerBytes ++ write_uint32 0, finished := true } ∧
      decodeContainer 1 (headerBytes ++ write_uint32 0) none = .ok ([], [])) :=
  ⟨_, rfl, C8_terminator_once [] _ rfl⟩

end Quip
namespace Quip

set_option maxHeartbeats 1600000 in
/-- C1 counterexample: a single read with a non-empty id but an empty
sequence is consumed by the encoder (`total_reads = 1`) yet the finished
output is the empty container, which decodes to no reads — the round-trip
loses the read, refuting the claim for inputs whose final block holds only
empty sequences. -/
theorem C1_empty_seq_read_dropped :
    (encodeAll 0 [⟨[114, 49], [], [], []⟩]).map (fun st => (st.out, st.total_reads)) =
      .ok (headerBytes ++ write_uint32 0, 1) ∧
    decodeContainer 1 (headerBytes ++ write_uint32 0) none = .ok ([], []) ∧
    ([] : List short_read) ≠ [⟨[114, 49], [], [], []⟩] :=
  ⟨by decide, by decide, by decide⟩

theorem min_fold_bounds (qs : List Nat) : ∀ m : Int, 0 ≤ m → m ≤ 126 →
    0 ≤ qs.foldl (fun m q => if ((q % 256 : Nat) : Int) < m then charOfByte q else m) m ∧
    qs.foldl (fun m q => if ((q % 256 : Nat) : Int) < m then charOfByte q else m) m ≤ 126 := by
  induction qs with
  | nil => intro m h0 h1; exact ⟨h0, h1⟩
  | cons q t ih =>
    intro m h0 h1
    rw [List.foldl_cons]
    by_cases hc : ((q % 256 : Nat) : Int) < m
    · rw [if_pos hc]
      refine ih (charOfByte q) ?_ ?_ <;> unfold charOfByte <;> split <;> omega
    · rw [if_neg hc]
      exact ih m h0 h1

/-- The minimum-quality accumulator scans `uint8_t` data starting from 126
and only ever shrinks to a byte below its current value, so it stays in
0..126 — in particular it is never negative. -/
theorem chunk_min_qual_bounds (chunk : List short_read) :
    0 ≤ chunk_min_qual chunk ∧ chunk_min_qual chunk ≤ 126 := by
  have main : ∀ (l : List short_read) (m : Int), 0 ≤ m → m ≤ 126 →
      0 ≤ l.foldl (fun m r => r.qual.foldl
        (fun m q => if ((q % 256 : Nat) : Int) < m then charOfByte q else m) m) m ∧
      l.foldl (fun m r => r.qual.foldl
        (fun m q => if ((q % 256 : Nat) : Int) < m then charOfByte q else m) m) m ≤ 126 := by
    intro l
    induction l with
    | nil => intro m h0 h1; exact ⟨h0, h1⟩
    | cons r t ih =>
      intro m h0 h1
      rw [List.foldl_cons]
      have hb := min_fold_bounds r.qual m h0 h1
      exact ih _ hb.1 hb.2
  exact main chunk 126 (by norm_num) le_rfl

/-- The guard `max_qual - min_qual > max_qual` is equivalent to
`min_qual < 0` over `int` arithmetic, and the minimum scan never goes
negative over `uint8_t` data, so `update_qual_scheme_guess` can never
fail. -/
theorem update_guess_no_error (C : quip_quip_out_t) :
    update_qual_scheme_guess C ≠ .error .invalidQualScale := by
  unfold update_qual_scheme_guess
  dsimp only
  have hb := chunk_min_qual_bounds C.chunk
  rw [if_neg (by omega)]
  split <;> simp

set_option maxHeartbeats 1600000 in
/-- C3 counterexample: `qual.s` is `uint8_t*`, so the minimum-quality
accumulator never becomes negative and the guard
`max_qual - min_qual > max_qual` (equivalent to `min_qual < 0`) is dead
code: no chunk ever raises the InvalidQualityRange error — not even one
spanning `QUAL_SCALE + 1` distinct quality values (33 to 98), or one
carrying the out-of-range quality byte 128. -/
theorem C3_invalid_qual_scale_unreachable :
    (∀ C : quip_quip_out_t, update_qual_scheme_guess C ≠ .error .invalidQualScale) ∧
    qual_scale_size ≤ (98 : Int) - 33 ∧
    (encodeAll 0 [⟨[], [65, 66], [33, 98], []⟩]).map (fun st => st.finished) = .ok true ∧
    (encodeAll 0 [⟨[], [65], [128], []⟩]).map (fun st => st.finished) = .ok true :=
  ⟨update_guess_no_error, by decide, by decide, by decide⟩

/-- C4: what `update_qual_scheme_guess` actually does when its range guard
passes: it opens a new run (based at the chunk minimum) exactly when the
chunk minimum is below the current base or the chunk MAXIMUM is at least
`base + QUAL_SCALE`; otherwise it extends the current run's count by the
chunk's read count, and it hands the resulting base to the quality codec. -/
theorem C4_scheme_run_update (C : quip_quip_out_t)
    (h : ¬ chunk_max_qual C.chunk - chunk_min_qual C.chunk > chunk_max_qual C.chunk)
    (hlen : C.chunk.length < 2 ^ 32) :
    ∃ C', update_qual_scheme_guess C = .ok C' ∧
      ((chunk_min_qual C.chunk < (C.scheme.getLastD (33, 0)).1 ∨
          chunk_max_qual C.chunk ≥ (C.scheme.getLastD (33, 0)).1 + qual_scale_size) →
        C'.scheme = C.scheme ++ [(chunk_min_qual C.chunk, C.chunk.length)] ∧
        C'.qualenc_base = chunk_min_qual C.chunk) ∧
      (¬ (chunk_min_qual C.chunk < (C.scheme.getLastD (33, 0)).1 ∨
          chunk_max_qual C.chunk ≥ (C.scheme.getLastD (33, 0)).1 + qual_scale_size) →
        C'.scheme = rle_add_last C.scheme C.chunk.length ∧
        C'.qualenc_base = (C.scheme.getLastD (33, 0)).1) := by
  unfold update_qual_scheme_guess
  dsimp only
  rw [if_neg h]
  by_cases hc : chunk_min_qual C.chunk < (C.scheme.getLastD (33, 0)).1 ∨
      chunk_max_qual C.chunk ≥ (C.scheme.getLastD (33, 0)).1 + qual_scale_size
  · rw [if_pos hc]
    refine ⟨_, rfl, fun _ => ⟨?_, rfl⟩, fun hn => absurd hc hn⟩
    show C.scheme ++ [(chunk_min_qual C.chunk, C.chunk.length % 2 ^ 32)] = _
    rw [Nat.mod_eq_of_lt hlen]
  · rw [if_neg hc]
    exact ⟨_, rfl, fun hp => absurd hp hc, fun _ => ⟨rfl, rfl⟩⟩

/-- C4 witness: the opened encoder holding one buffered read with quality
bytes 33 and 97. -/
theorem C4_scheme_run_update_witness :
    (¬ chunk_max_qual ({ (quip_quip_out_open 0) with
        chunk := [⟨[], [65, 66], [33, 97], []⟩] } : quip_quip_out_t).chunk -
      chunk_min_qual ({ (quip_quip_out_open 0) with
        chunk := [⟨[], [65, 66], [33, 97], []⟩] } : quip_quip_out_t).chunk >
      chunk_max_qual ({ (quip_quip_out_open 0) with
        chunk := [⟨[], [65, 66], [33, 97], []⟩] } : quip_quip_out_t).chunk) ∧
    ({ (quip_quip_out_open 0) with
        chunk := [⟨[], [65, 66], [33, 97], []⟩] } : quip_quip_out_t).chunk.length < 2 ^ 32 ∧
    (∃ C', update_qual_scheme_guess { (quip_quip_out_open 0) with
        chunk := [⟨[], [65, 66], [33, 97], []⟩] } = .ok C' ∧
      ((chunk_min_qual ({ (quip_quip_out_open 0) with
          chunk := [⟨[], [65, 66], [33, 97], []⟩] } : quip_quip_out_t).chunk <
          (({ (quip_quip_out_open 0) with
            chunk := [⟨[], [65, 66], [33, 97], []⟩] } : quip_quip_out_t).scheme.getLastD
              (33, 0)).1 ∨
        chunk_max_qual ({ (quip_quip_out_open 0) with
          chunk := [⟨[], [65, 66], [33, 97], []⟩] } : quip_quip_out_t).chunk ≥
          (({ (quip_quip_out_open 0) with
            chunk := [⟨[], [65, 66], [33, 97], []⟩] } : quip_quip_out_t).scheme.getLastD
              (33, 0)).1 + qual_scale_size) →
        C'.scheme = ({ (quip_quip_out_open 0) with
            chunk := [⟨[], [65, 66], [33, 97], []⟩] } : quip_quip_out_t).scheme ++
          [(chunk_min_qual ({ (quip_quip_out_open 0) with
            chunk := [⟨[], [65, 66], [33, 97], []⟩] } : quip_quip_out_t).chunk,
          ({ (quip_quip_out_open 0) with
            chunk := [⟨[], [65, 66], [33, 97], []⟩] } : quip_quip_out_t).chunk.length)] ∧
        C'.qualenc_base = chunk_min_qual ({ (quip_quip_out_open 0) with
          chunk := [⟨[], [65, 66], [33, 97], []⟩] } : quip_quip_out_t).chunk) ∧
      (¬ (chunk_min_qual ({ (quip_quip_out_open 0) with
          chunk := [⟨[], [65, 66], [33, 97], []⟩] } : quip_quip_out_t).chunk <
          (({ (quip_quip_out_open 0) with
            chunk := [⟨[], [65, 66], [33, 97], []⟩] } : quip_quip_out_t).scheme.getLastD
              (33, 0)).1 ∨
        chunk_max_qual ({ (quip_quip_out_open 0) with
          chunk := [⟨[], [65, 66], [33, 97], []⟩] } : quip_quip_out_t).chunk ≥
          (({ (quip_quip_out_open 0) with
            chunk := [⟨[], [65, 66], [33, 97], []⟩] } : quip_quip_out_t).scheme.getLastD
              (33, 0)).1 + qual_scale_size) →
        C'.scheme = rle_add_last ({ (quip_quip_out_open 0) with
            chunk := [⟨[], [65, 66], [33, 97], []⟩] } : quip_quip_out_t).scheme
          ({ (quip_quip_out_open 0) with
            chunk := [⟨[], [65, 66], [33, 97], []⟩] } : quip_quip_out_t).chunk.length ∧
        C'.qualenc_base = (({ (quip_quip_out_open 0) with
          chunk := [⟨[], [65, 66], [33, 97], []⟩] } : quip_quip_out_t).scheme.getLastD
            (33, 0)).1)) :=
  ⟨by decide, by decide, C4_scheme_run_update { (quip_quip_out_open 0) with
    chunk := [⟨[], [65, 66], [33, 97], []⟩] } (by decide) (by decide)⟩

set_option maxHeartbeats 1600000 in
/-- C4 counterexample: with the initial base 33, a chunk whose minimum
quality is 33 (inside the current window) but whose maximum is 97 opens a
new scheme run, although the spec's min-only rule would extend the current
run — the opening condition tests the chunk maximum, not the minimum. -/
theorem C4_max_opens_new_run :
    (encodeAll 0 [⟨[], [65, 66], [33, 97], []⟩]).map
        (fun st => st.blocks.map (fun b => b.scheme)) =
      .ok [[((33 : Int), 0), ((33 : Int), 1)]] ∧
    ¬ ((33 : Int) < 33 ∨ (33 : Int) > 33 + (qual_scale_size - 1)) :=
  ⟨by decide, by decide⟩

end Quip
